/-
  Verification of the SCCP (Sparse Conditional Constant Propagation) solver
  from external/llvm/lib/Transforms/Scalar/SCCP.cpp, as a shallow embedding.

  The embedding mirrors the source functions named in the comments; machine
  integers are modelled as mathematical integers (no claim below depends on
  bit width or overflow), and LLVM Constant pointers are modelled as the
  inductive Konst (LLVM constants are uniqued, so pointer equality is
  structural constant equality).
-/
import Mathlib

/-- LLVM types, restricted to the shapes the solver inspects: integer types,
    an opaque non-integer scalar type (pointers, floats, ...), the void type,
    and a struct type carrying its field types. -/
inductive Ty where
  | int : Ty
  | ptr : Ty
  | voidT : Ty
  | strukt : List Ty → Ty

mutual
def Ty.decEq : (a b : Ty) → Decidable (a = b)
  | .int, .int => .isTrue rfl
  | .ptr, .ptr => .isTrue rfl
  | .voidT, .voidT => .isTrue rfl
  | .strukt xs, .strukt ys =>
    match Ty.decEqList xs ys with
    | .isTrue h => .isTrue (by rw [h])
    | .isFalse h => .isFalse (fun hh => h (by cases hh; rfl))
  | .int, .ptr => .isFalse (fun h => nomatch h)
  | .int, .voidT => .isFalse (fun h => nomatch h)
  | .int, .strukt _ => .isFalse (fun h => nomatch h)
  | .ptr, .int => .isFalse (fun h => nomatch h)
  | .ptr, .voidT => .isFalse (fun h => nomatch h)
  | .ptr, .strukt _ => .isFalse (fun h => nomatch h)
  | .voidT, .int => .isFalse (fun h => nomatch h)
  | .voidT, .ptr => .isFalse (fun h => nomatch h)
  | .voidT, .strukt _ => .isFalse (fun h => nomatch h)
  | .strukt _, .int => .isFalse (fun h => nomatch h)
  | .strukt _, .ptr => .isFalse (fun h => nomatch h)
  | .strukt _, .voidT => .isFalse (fun h => nomatch h)

def Ty.decEqList : (xs ys : List Ty) → Decidable (xs = ys)
  | [], [] => .isTrue rfl
  | [], _ :: _ => .isFalse (fun h => nomatch h)
  | _ :: _, [] => .isFalse (fun h => nomatch h)
  | x :: xs, y :: ys =>
    match Ty.decEq x y, Ty.decEqList xs ys with
    | .isTrue h1, .isTrue h2 => .isTrue (by rw [h1, h2])
    | .isFalse h1, _ => .isFalse (fun h => h1 (by cases h; rfl))
    | _, .isFalse h2 => .isFalse (fun h => h2 (by cases h; rfl))
end

instance : DecidableEq Ty := Ty.decEq

/-- LLVM constants (Constant pointers) in the shapes the solver inspects:
    ConstantInt (modelled by its mathematical integer value), UndefValue,
    ConstantStruct with its member constants, ConstantAggregateZero, the null
    value of a non-integer non-struct type, and opaque constants the solver
    cannot fold (for example ConstantExpr), distinguished by a tag. -/
inductive Konst where
  | intC : Int → Konst
  | undefC : Konst
  | structC : List Konst → Konst
  | aggZeroC : Konst
  | nullOther : Ty → Konst
  | otherC : Nat → Konst

mutual
def Konst.decEq : (a b : Konst) → Decidable (a = b)
  | .intC m, .intC n =>
    match Int.decEq m n with
    | .isTrue h => .isTrue (by rw [h])
    | .isFalse h => .isFalse (fun hh => h (by cases hh; rfl))
  | .undefC, .undefC => .isTrue rfl
  | .structC xs, .structC ys =>
    match Konst.decEqList xs ys with
    | .isTrue h => .isTrue (by rw [h])
    | .isFalse h => .isFalse (fun hh => h (by cases hh; rfl))
  | .aggZeroC, .aggZeroC => .isTrue rfl
  | .nullOther s, .nullOther t =>
    match Ty.decEq s t with
    | .isTrue h => .isTrue (by rw [h])
    | .isFalse h => .isFalse (fun hh => h (by cases hh; rfl))
  | .otherC m, .otherC n =>
    match Nat.decEq m n with
    | .isTrue h => .isTrue (by rw [h])
    | .isFalse h => .isFalse (fun hh => h (by cases hh; rfl))
  | .intC _, .undefC => .isFalse (fun h => nomatch h)
  | .intC _, .structC _ => .isFalse (fun h => nomatch h)
  | .intC _, .aggZeroC => .isFalse (fun h => nomatch h)
  | .intC _, .nullOther _ => .isFalse (fun h => nomatch h)
  | .intC _, .otherC _ => .isFalse (fun h => nomatch h)
  | .undefC, .intC _ => .isFalse (fun h => nomatch h)
  | .undefC, .structC _ => .isFalse (fun h => nomatch h)
  | .undefC, .aggZeroC => .isFalse (fun h => nomatch h)
  | .undefC, .nullOther _ => .isFalse (fun h => nomatch h)
  | .undefC, .otherC _ => .isFalse (fun h => nomatch h)
  | .structC _, .intC _ => .isFalse (fun h => nomatch h)
  | .structC _, .undefC => .isFalse (fun h => nomatch h)
  | .structC _, .aggZeroC => .isFalse (fun h => nomatch h)
  | .structC _, .nullOther _ => .isFalse (fun h => nomatch h)
  | .structC _, .otherC _ => .isFalse (fun h => nomatch h)
  | .aggZeroC, .intC _ => .isFalse (fun h => nomatch h)
  | .aggZeroC, .undefC => .isFalse (fun h => nomatch h)
  | .aggZeroC, .structC _ => .isFalse (fun h => nomatch h)
  | .aggZeroC, .nullOther _ => .isFalse (fun h => nomatch h)
  | .aggZeroC, .otherC _ => .isFalse (fun h => nomatch h)
  | .nullOther _, .intC _ => .isFalse (fun h => nomatch h)
  | .nullOther _, .undefC => .isFalse (fun h => nomatch h)
  | .nullOther _, .structC _ => .isFalse (fun h => nomatch h)
  | .nullOther _, .aggZeroC => .isFalse (fun h => nomatch h)
  | .nullOther _, .otherC _ => .isFalse (fun h => nomatch h)
  | .otherC _, .intC _ => .isFalse (fun h => nomatch h)
  | .otherC _, .undefC => .isFalse (fun h => nomatch h)
  | .otherC _, .structC _ => .isFalse (fun h => nomatch h)
  | .otherC _, .aggZeroC => .isFalse (fun h => nomatch h)
  | .otherC _, .nullOther _ => .isFalse (fun h => nomatch h)

def Konst.decEqList : (xs ys : List Konst) → Decidable (xs = ys)
  | [], [] => .isTrue rfl
  | [], _ :: _ => .isFalse (fun h => nomatch h)
  | _ :: _, [] => .isFalse (fun h => nomatch h)
  | x :: xs, y :: ys =>
    match Konst.decEq x y, Konst.decEqList xs ys with
    | .isTrue h1, .isTrue h2 => .isTrue (by rw [h1, h2])
    | .isFalse h1, _ => .isFalse (fun h => h1 (by cases h; rfl))
    | _, .isFalse h2 => .isFalse (fun h => h2 (by cases h; rfl))
end

instance : DecidableEq Konst := Konst.decEq

/-- Constant::getNullValue of a type: integer zero for integer types, the
    aggregate-zero sentinel for struct types, and the opaque null value of the
    other scalar types. -/
def nullValue : Ty → Konst
  | .int => .intC 0
  | .strukt _ => .aggZeroC
  | t => .nullOther t

/-- Constant::getAllOnesValue of a type: the all-bits-set integer for integer
    types (mathematical integer -1).  The solver only asks for it at integer
    (or integer-vector) types; other types are given an opaque constant. -/
def allOnesValue : Ty → Konst
  | .int => .intC (-1)
  | _ => .otherC 0

/-- Constant::isNullValue: integer zero, aggregate zero, and typed null
    values are null. -/
def Konst.isNullValue : Konst → Bool
  | .intC n => n = 0
  | .aggZeroC => true
  | .nullOther _ => true
  | _ => false

/-- The four-state lattice of class LatticeVal (SCCP.cpp lines 54-146):
    undefined, constant, forcedconstant (each constant state carrying its
    Constant), and overdefined. -/
inductive LatticeVal where
  | undefined : LatticeVal
  | constant : Konst → LatticeVal
  | forcedconstant : Konst → LatticeVal
  | overdefined : LatticeVal
deriving DecidableEq

/-- LatticeVal::isUndefined. -/
def LatticeVal.isUndefined : LatticeVal → Bool
  | .undefined => true
  | _ => false

/-- LatticeVal::isConstant: true for both constant and forcedconstant. -/
def LatticeVal.isConstant : LatticeVal → Bool
  | .constant _ => true
  | .forcedconstant _ => true
  | _ => false

/-- LatticeVal::isOverdefined. -/
def LatticeVal.isOverdefined : LatticeVal → Bool
  | .overdefined => true
  | _ => false

/-- LatticeVal::getConstant.  The source asserts isConstant; the non-constant
    states yield none (a precondition violation in the source). -/
def LatticeVal.getConstant : LatticeVal → Option Konst
  | .constant c => some c
  | .forcedconstant c => some c
  | _ => none

/-- LatticeVal::getConstantInt: the carried constant if it is a ConstantInt,
    otherwise null. -/
def LatticeVal.getConstantInt : LatticeVal → Option Int
  | .constant (.intC n) => some n
  | .forcedconstant (.intC n) => some n
  | _ => none

/-- LatticeVal::markOverdefined (lines 100-106): result is overdefined, and
    the returned flag is true exactly when this is a change of status. -/
def LatticeVal.markOverdefined : LatticeVal → Bool × LatticeVal
  | .overdefined => (false, .overdefined)
  | _ => (true, .overdefined)

/-- LatticeVal::markConstant (lines 109-131).  none models the assertion
    failures: marking a plain constant with a different constant, and marking
    an overdefined value (the source asserts the state is forcedconstant
    there).  Otherwise the pair is (changed flag, new state): a plain
    constant marked with the same constant is unchanged; undefined moves to
    constant; forcedconstant stays put on the same constant and falls to
    overdefined on a different one. -/
def LatticeVal.markConstant (lv : LatticeVal) (V : Konst) : Option (Bool × LatticeVal) :=
  match lv with
  | .constant c => if c = V then some (false, .constant c) else none
  | .undefined => some (true, .constant V)
  | .forcedconstant c =>
      if V = c then some (false, .forcedconstant c) else some (true, .overdefined)
  | .overdefined => none

/-- LatticeVal::markForcedConstant (lines 141-145): legal only from
    undefined (the source asserts isUndefined); none models the assertion. -/
def LatticeVal.markForcedConstant (lv : LatticeVal) (V : Konst) : Option LatticeVal :=
  match lv with
  | .undefined => some (.forcedconstant V)
  | _ => none

/-- Rank of a state in the lattice order
    undefined < constant / forcedconstant < overdefined. -/
def LatticeVal.rank : LatticeVal → Nat
  | .undefined => 0
  | .constant _ => 1
  | .forcedconstant _ => 1
  | .overdefined => 2

/-- SCCPSolver::mergeInValue (lines 358-367), restricted to its effect on the
    target lattice value IV (the worklist side effects of the markConstant and
    markOverdefined wrappers only schedule revisits and touch no lattice
    state).  When IV is undefined, MergeWithV is a constant state there, so
    the markConstant call always succeeds; the unreachable none branch
    returns IV. -/
def mergeInValue (IV MergeWithV : LatticeVal) : LatticeVal :=
  if IV.isOverdefined || MergeWithV.isUndefined then IV
  else if MergeWithV.isOverdefined then (IV.markOverdefined).2
  else if IV.isUndefined then
    match MergeWithV.getConstant with
    | some c => ((IV.markConstant c).getD (false, IV)).2
    | none => IV
  else if IV.getConstant ≠ MergeWithV.getConstant then (IV.markOverdefined).2
  else IV

/-- An SSA value operand (llvm::Value): either a literal constant or a
    register (the result of an instruction or a formal argument), identified
    by a numeric handle.  Every Value carries its type. -/
inductive Val where
  | cnst : Ty → Konst → Val
  | reg : Ty → Nat → Val
deriving DecidableEq

/-- Value::getType. -/
def Val.ty : Val → Ty
  | .cnst t _ => t
  | .reg t _ => t

/-- Type::isStructTy. -/
def Ty.isStructTy : Ty → Bool
  | .strukt _ => true
  | _ => false

/-- The scalar value-state lookup as the solver sees it once seeding has
    happened: SCCPSolver::getValueState (lines 378-396) seeds a literal
    constant other than undef to Constant(itself) and everything else to
    Undefined, and nothing afterwards ever writes the entry of a literal
    constant (the mark functions are invoked on instructions, and
    ResolvedUndefsIn routes literal-undef conditions away from
    markForcedConstant), so a lookup of a constant always returns its seed and
    a lookup of a register returns the tracked map entry sigma. -/
def valueStateOf (sigma : Nat → LatticeVal) : Val → LatticeVal
  | .cnst _ c => if c = .undefC then .undefined else .constant c
  | .reg _ i => sigma i

/-- SCCPSolver::getValueState (lines 378-396) with the DenseMap modelled as an
    association list: returns the entry if present, otherwise inserts and
    returns the lazily seeded value (via LatticeVal::markConstant from the
    default-constructed undefined state, exactly as the source).  none models
    the assertion that V is not struct-typed. -/
def getValueState (VS : List (Val × LatticeVal)) (V : Val) :
    Option (LatticeVal × List (Val × LatticeVal)) :=
  if V.ty.isStructTy then none
  else
    match VS.lookup V with
    | some lv => some (lv, VS)
    | none =>
      let lv : LatticeVal :=
        match V with
        | .cnst _ c =>
          if c = .undefC then .undefined
          else ((LatticeVal.undefined.markConstant c).getD (false, .undefined)).2
        | .reg _ _ => .undefined
      some (lv, (V, lv) :: VS)

/-- SCCPSolver::getStructValueState (lines 398-428) with the DenseMap
    modelled as an association list keyed by (value, field index).  none
    models the assertions (V is struct-typed, i is a valid field index, and a
    ConstantStruct has an operand for every field).  A fresh entry for field i
    is seeded: sub-constant i for a ConstantStruct, the null value of the
    field type for ConstantAggregateZero, undefined for UndefValue,
    overdefined for any other constant, undefined for non-constants. -/
def getStructValueState (SVS : List ((Val × Nat) × LatticeVal)) (V : Val) (i : Nat) :
    Option (LatticeVal × List ((Val × Nat) × LatticeVal)) :=
  match V.ty with
  | .strukt fieldTys =>
    if h : i < fieldTys.length then
      match SVS.lookup (V, i) with
      | some lv => some (lv, SVS)
      | none =>
        let seed : Option LatticeVal :=
          match V with
          | .reg _ _ => some .undefined
          | .cnst _ c =>
            match c with
            | .undefC => some .undefined
            | .structC fields =>
              match fields.get? i with
              | some sub => some (((LatticeVal.undefined.markConstant sub).getD
                  (false, .undefined)).2)
              | none => none
            | .aggZeroC => some (((LatticeVal.undefined.markConstant
                (nullValue fieldTys[i])).getD (false, .undefined)).2)
            | _ => some ((LatticeVal.undefined.markOverdefined).2)
        match seed with
        | some lv => some (lv, ((V, i), lv) :: SVS)
        | none => none
    else none
  | _ => none

/-- Instruction opcodes, covering the opcodes SCCP.cpp dispatches on by name
    plus an opaque remainder (the default visitor case). -/
inductive Opcode where
  | Add | Sub | Mul | SDiv | UDiv | SRem | URem
  | Shl | LShr | AShr | And | Or | Xor
  | ZExt | SIToFP | UIToFP
  | Select | Call | Phi
  | Other : Nat → Opcode
deriving DecidableEq

/-- A non-terminator instruction: its result type, opcode, and operand
    list. -/
structure Instr where
  ty : Ty
  opcode : Opcode
  operands : List Val
deriving DecidableEq

/-- Block terminators.  Basic blocks are identified by their index in the
    block list of the function.  A conditional branch stores its condition, the
    successor-0 (true) destination and the successor-1 (false) destination; a
    switch stores its condition, the successor-0 default destination and the
    list of (case value, destination) pairs, case i being successor i+1; an
    indirectbr stores its possible destinations.  Invoke and unwind are not
    modelled (no claim concerns them). -/
inductive Terminator where
  | brUncond : Nat → Terminator
  | brCond : Val → Nat → Nat → Terminator
  | switch : Val → Nat → List (Int × Nat) → Terminator
  | indirectBr : List Nat → Terminator
  | ret : Option Val → Terminator
  | unreachable : Terminator
deriving DecidableEq

/-- A basic block: its instructions, each with the register handle holding its
    result, and its terminator.  PHI nodes are instructions with opcode Phi
    whose operands are the incoming values. -/
structure Block where
  insts : List (Nat × Instr)
  term : Terminator
deriving DecidableEq

/-- A function: its CFG as a list of basic blocks, block i being the block
    with index i; block 0 is the entry block. -/
structure Func where
  blocks : List Block
deriving DecidableEq

/-- The auxiliary solver state the claims are about: the executable-block set
    BBExecutable, the scalar value states (ValueState restricted to
    registers; literal constants are covered by valueStateOf), the struct
    field states (StructValueState restricted to registers), and the
    KnownFeasibleEdges set. -/
structure SolverState where
  bbexec : List Nat
  sigma : Nat → LatticeVal
  sigmaS : Nat → Nat → LatticeVal
  edges : List (Nat × Nat)

/-- Position of the first case carrying the given value in the case list. -/
def findCaseIdx : List (Int × Nat) → Int → Option Nat
  | [], _ => none
  | c :: cs, n => if c.1 = n then some 0 else (findCaseIdx cs n).map (· + 1)

/-- SwitchInst::findCaseValue: the successor index of the first case listed
    with the given value, or 0 (the default destination) when no case
    matches. -/
def findCaseValue (cases : List (Int × Nat)) (n : Int) : Nat :=
  match findCaseIdx cases n with
  | some i => i + 1
  | none => 0

/-- SCCPSolver::getFeasibleSuccessors (lines 549-605): one boolean per
    successor.  Unconditional branches have their only successor feasible.
    A conditional branch with a ConstantInt condition has exactly the
    successor selected by the truth value feasible; an undefined condition
    has neither successor feasible; an overdefined condition, or a constant
    condition that is not a ConstantInt (an unfoldable constant), has both
    feasible.  A switch behaves analogously, the matching case (or the
    default when no case matches) being the one feasible successor.
    Indirectbr marks every destination feasible.  Return and unreachable
    never reach this function (the source would hit llvm_unreachable); they
    yield the empty vector. -/
def getFeasibleSuccessors (sigma : Nat → LatticeVal) : Terminator → List Bool
  | .brUncond _ => [true]
  | .brCond cond _ _ =>
    let BCValue := valueStateOf sigma cond
    match BCValue.getConstantInt with
    | none => if BCValue.isUndefined then [false, false] else [true, true]
    | some n => if n = 0 then [false, true] else [true, false]
  | .switch cond _ cases =>
    let SCValue := valueStateOf sigma cond
    let numSuccs := cases.length + 1
    match SCValue.getConstantInt with
    | none =>
      if SCValue.isUndefined then List.replicate numSuccs false
      else List.replicate numSuccs true
    | some n => (List.replicate numSuccs false).set (findCaseValue cases n) true
  | .indirectBr dests => List.replicate dests.length true
  | .ret _ => []
  | .unreachable => []

/-- SCCPSolver::isEdgeFeasible (lines 611-665).  False when the source block
    is not executable; an unconditional branch edge is feasible; a branch or
    switch with a ConstantInt condition selects a single destination and the
    edge is feasible iff it goes there (a switch with no matching case
    selects the default); an undefined condition makes no edge feasible and
    any other condition state makes every edge feasible; indirectbr edges are
    always feasible.  A source block that is missing or ends in ret or
    unreachable cannot be the source of an edge to a live block; the source
    would hit llvm_unreachable, modelled as false. -/
def isEdgeFeasible (F : Func) (st : SolverState) (From To : Nat) : Bool :=
  if !(st.bbexec.contains From) then false
  else
    match F.blocks.get? From with
    | none => false
    | some blk =>
      match blk.term with
      | .brUncond _ => true
      | .brCond cond succ0 succ1 =>
        let BCValue := valueStateOf st.sigma cond
        match BCValue.getConstantInt with
        | none => !BCValue.isUndefined
        | some n => (if n = 0 then succ1 else succ0) = To
      | .switch cond dflt cases =>
        let SCValue := valueStateOf st.sigma cond
        match SCValue.getConstantInt with
        | none => !SCValue.isUndefined
        | some n =>
          match cases.find? (fun p => p.1 = n) with
          | some p => p.2 = To
          | none => dflt = To
      | .indirectBr _ => true
      | .ret _ => false
      | .unreachable => false

/-- A PHI node: the register holding its result, the index of the block it
    lives in, and its incoming (value, predecessor block) pairs.  Only
    scalar-typed PHI nodes are modelled: a struct-typed PHI carries no scalar
    lattice state (the source routes it to markAnythingOverdefined at line
    688 before touching any of the state below). -/
structure Phi where
  id : Nat
  parent : Nat
  incoming : List (Val × Nat)
deriving DecidableEq

/-- Outcome of the operand scan of SCCPSolver::visitPHINode: the node must
    become overdefined; all feasible defined operands agreed on one constant;
    or no feasible defined operand exists. -/
inductive PhiMerge where
  | goesOverdefined : PhiMerge
  | agreed : Konst → PhiMerge
  | noOperand : PhiMerge
deriving DecidableEq

/-- The operand loop of SCCPSolver::visitPHINode (lines 719-743), with acc
    playing the role of OperandVal (none for the null initial value).  An
    operand whose state is undefined, or whose incoming edge is not feasible,
    is skipped; an overdefined operand ends the scan at goesOverdefined, as does a
    constant conflicting with the constant seen so far.  An operand reached
    after the overdefined and undefined tests is a constant state, so the
    unreachable none branch of getConstant also answers goesOverdefined. -/
def phiLoopAux (feasible : Nat → Bool) (state : Val → LatticeVal) :
    List (Val × Nat) → Option Konst → PhiMerge
  | [], none => .noOperand
  | [], some c => .agreed c
  | (v, pred) :: rest, acc =>
    let IV := state v
    if IV.isUndefined then phiLoopAux feasible state rest acc
    else if !(feasible pred) then phiLoopAux feasible state rest acc
    else if IV.isOverdefined then .goesOverdefined
    else
      match acc, IV.getConstant with
      | none, some c => phiLoopAux feasible state rest (some c)
      | some c0, some c =>
        if c ≠ c0 then .goesOverdefined else phiLoopAux feasible state rest (some c0)
      | _, none => .goesOverdefined

/-- SCCPSolver::visitPHINode (lines 685-752) restricted to its effect on the
    lattice value of the PHI node itself, which is returned.  An overdefined
    node only has its dependent users revisited (elided: that writes no state
    of the node).  A node with more than 64 incoming values is marked
    overdefined outright.  Otherwise the operand scan over feasible incoming
    edges decides: overdefined, or markConstant with the agreed constant, or
    no change when no defined feasible operand exists.  none models the
    markConstant assertion (a plain constant node confronted with a different
    agreed constant). -/
def visitPHINode (F : Func) (st : SolverState) (pn : Phi) : Option LatticeVal :=
  let cur := st.sigma pn.id
  if cur.isOverdefined then some cur
  else if pn.incoming.length > 64 then some ((cur.markOverdefined).2)
  else
    match phiLoopAux (fun pred => isEdgeFeasible F st pred pn.parent)
        (valueStateOf st.sigma) pn.incoming none with
    | .goesOverdefined => some ((cur.markOverdefined).2)
    | .agreed c => (cur.markConstant c).map Prod.snd
    | .noOperand => some cur

/-- ConstantExpr::get over two constants, for the opcodes whose folds are
    integer arithmetic. Every other combination yields an opaque constant
    expression; no claim depends on a folded value. -/
def constantFold (op : Opcode) (c1 c2 : Konst) : Konst :=
  match op, c1, c2 with
  | .Add, .intC a, .intC b => .intC (a + b)
  | .Sub, .intC a, .intC b => .intC (a - b)
  | .Mul, .intC a, .intC b => .intC (a * b)
  | .And, .intC a, .intC b => .intC (Int.land a b)
  | .Or, .intC a, .intC b => .intC (Int.lor a b)
  | .Xor, .intC a, .intC b => .intC (Int.xor a b)
  | _, _, _ => .otherC 0

/-- PHINode::getIncomingValueForBlock: the incoming value listed for the
    predecessor block.  The source asserts the block is listed; the default
    is unreachable for well-formed inputs. -/
def Phi.getIncomingValueForBlock (pn : Phi) (blk : Nat) : Val :=
  ((pn.incoming.find? (fun p => p.2 = blk)).map Prod.fst).getD (.cnst .int .undefC)

/-- The edge-wise loop of the two-PHI special case of
    SCCPSolver::visitBinaryOperator (lines 961-982): Result starts undefined;
    an overdefined operand pair breaks with Result overdefined; a pair of
    constants folds, seeding Result or breaking to overdefined on a
    conflicting fold; pairs involving an undefined state are skipped. -/
def phiPairLoop (sigma : Nat → LatticeVal) (op : Opcode) (pn2 : Phi) :
    List (Val × Nat) → LatticeVal → LatticeVal
  | [], Result => Result
  | (v, blk) :: rest, Result =>
    let In1 := valueStateOf sigma v
    let In2 := valueStateOf sigma (pn2.getIncomingValueForBlock blk)
    if In1.isOverdefined || In2.isOverdefined then (Result.markOverdefined).2
    else
      match In1.getConstant, In2.getConstant with
      | some c1, some c2 =>
        let V := constantFold op c1 c2
        if Result.isUndefined then phiPairLoop sigma op pn2 rest (.constant V)
        else if Result.isConstant && !(Result.getConstant = some V) then
          (Result.markOverdefined).2
        else phiPairLoop sigma op pn2 rest Result
      | _, _ => phiPairLoop sigma op pn2 rest Result

/-- SCCPSolver::visitBinaryOperator (lines 894-1008) restricted to its effect
    on the lattice value of the instruction, which is returned.  phiOf gives
    the PHI node held in a register, when the register is a PHI (the def-use
    information dyn_cast gives the source).  In order: an already
    overdefined instruction is left alone; two constant operands fold; two
    non-overdefined operands (at least one undefined) defer; an AND or OR
    with one overdefined operand consults the other operand - an undefined
    other operand annihilates to zero (AND) or all-ones (OR), a null constant
    annihilates an AND and an all-ones ConstantInt annihilates an OR; then
    the two-PHI-operands special case; otherwise overdefined.  none models
    the markConstant assertion.  The UsersOfOverdefinedPHIs bookkeeping
    (lines 988-1004) only schedules revisits and is elided. -/
def visitBinaryOperator (phiOf : Nat → Option Phi) (sigma : Nat → LatticeVal)
    (ty : Ty) (op : Opcode) (v1 v2 : Val) (cur : LatticeVal) : Option LatticeVal :=
  let V1State := valueStateOf sigma v1
  let V2State := valueStateOf sigma v2
  if cur.isOverdefined then some cur
  else
    match V1State.getConstant, V2State.getConstant with
    | some c1, some c2 => (cur.markConstant (constantFold op c1 c2)).map Prod.snd
    | _, _ =>
      if !V1State.isOverdefined && !V2State.isOverdefined then some cur
      else
        let andOr : Option (Option LatticeVal) :=
          if op = .And || op = .Or then
            let NonOverdefVal : Option LatticeVal :=
              if !V1State.isOverdefined then some V1State
              else if !V2State.isOverdefined then some V2State
              else none
            match NonOverdefVal with
            | none => none
            | some nv =>
              if nv.isUndefined then
                if op = .And then
                  some ((cur.markConstant (nullValue ty)).map Prod.snd)
                else
                  some ((cur.markConstant (allOnesValue ty)).map Prod.snd)
              else
                match nv.getConstant with
                | some c =>
                  if op = .And then
                    if c.isNullValue then some ((cur.markConstant c).map Prod.snd)
                    else none
                  else
                    match c with
                    | .intC n =>
                      if n = -1 then some ((cur.markConstant c).map Prod.snd)
                      else none
                    | _ => none
                | none => none
          else none
        match andOr with
        | some r => r
        | none =>
          match v1, v2 with
          | .reg _ i1, .reg _ i2 =>
            match phiOf i1, phiOf i2 with
            | some pn1, some pn2 =>
              if pn1.parent = pn2.parent then
                match phiPairLoop sigma op pn2 pn1.incoming .undefined with
                | .constant c => (cur.markConstant c).map Prod.snd
                | .forcedconstant c => (cur.markConstant c).map Prod.snd
                | .undefined => some cur
                | .overdefined => some ((cur.markOverdefined).2)
              else some ((cur.markOverdefined).2)
            | _, _ => some ((cur.markOverdefined).2)
          | _, _ => some ((cur.markOverdefined).2)

/-- markForcedConstant(V, C) of the solver (lines 331-340) on the scalar
    state of register i.  Every call site is guarded by an isUndefined check,
    mirroring the assert inside LatticeVal::markForcedConstant; on a
    non-undefined state (unreachable) the state is kept. -/
def SolverState.forceReg (st : SolverState) (i : Nat) (c : Konst) : SolverState :=
  { st with sigma := fun j =>
      if j = i then ((st.sigma j).markForcedConstant c).getD (st.sigma j)
      else st.sigma j }

/-- markOverdefined(V) of the solver (lines 297-300, 346-356) on the scalar
    state of register i: the state becomes overdefined (the worklist push
    only schedules revisits). -/
def SolverState.overdefReg (st : SolverState) (i : Nat) : SolverState :=
  { st with sigma := fun j =>
      if j = i then ((st.sigma j).markOverdefined).2 else st.sigma j }

/-- markOverdefined on the struct field state (value i, field k). -/
def SolverState.overdefField (st : SolverState) (i k : Nat) : SolverState :=
  { st with sigmaS := fun j l =>
      if j = i then (if l = k then ((st.sigmaS j l).markOverdefined).2
                     else st.sigmaS j l)
      else st.sigmaS j l }

/-- markForcedConstant applied to a branch or switch condition by
    ResolvedUndefsIn.  The condition there is always a register: a literal
    undef condition is handled by the separate setCondition path, and any
    other literal constant has a constant state and fails the isUndefined
    guard.  A constant condition (unreachable) leaves the state alone. -/
def SolverState.forceCond (st : SolverState) (cond : Val) (c : Konst) : SolverState :=
  match cond with
  | .reg _ i => st.forceReg i c
  | .cnst _ _ => st

/-- SCCPSolver::markEdgeExecutable (lines 433-449): a known edge is a no-op;
    a new edge is recorded and, when the destination was not yet executable,
    the destination is marked executable (MarkBlockExecutable).  When the
    destination was already executable the source re-runs visitPHINode on its
    PHI nodes; that notification writes no reachability state and is elided
    (the theorems that walk through this path assume a not-yet-executable
    destination, where the elision is vacuous). -/
def markEdgeExecutable (st : SolverState) (src dst : Nat) : SolverState :=
  if st.edges.contains (src, dst) then st
  else
    let st1 : SolverState := { st with edges := (src, dst) :: st.edges }
    if st1.bbexec.contains dst then st1
    else { st1 with bbexec := dst :: st1.bbexec }

/-- Lines 1426-1432 of ResolvedUndefsIn: each still-undefined field of a
    struct-typed call or select result is marked overdefined, with no early
    return. -/
def ruiStructMark (st : SolverState) (id : Nat) (fieldTys : List Ty) : SolverState :=
  (List.range fieldTys.length).foldl
    (fun s k => if (s.sigmaS id k).isUndefined then s.overdefField id k else s) st

/-- The body of the per-instruction scan of SCCPSolver::ResolvedUndefsIn
    (lines 1418-1542) for one instruction held in register id.  The boolean
    is the early "return true" of the source (a forced decision was made).
    Void results are skipped.  A struct-typed call or select has each still
    undefined field sent to overdefined, without an early return (line
    1426-1432); other struct-typed results are skipped.  A scalar result
    still undefined has its opcode dispatched exactly as the source switch:
    zext, sitofp, uitofp, mul and and force zero; or forces all-ones; the
    division and remainder opcodes force zero unless the second operand is
    undefined; ashr passes through a constant first operand or goes
    overdefined, unless the first operand is undefined; lshr and shl force
    zero unless the first operand is undefined; select picks the constant arm
    per lines 1516-1535; a call with a pending undef result goes overdefined;
    everything else is left undefined.  An instruction with no operands
    cannot reach the scan in the source (every value-producing instruction
    carries at least one operand); it is skipped. -/
def ruiInst (st : SolverState) (id : Nat) (ins : Instr) : SolverState × Bool :=
  if ins.ty = .voidT then (st, false)
  else
    match ins.ty with
    | .strukt fieldTys =>
      if ins.opcode = .Call || ins.opcode = .Select then
        (ruiStructMark st id fieldTys, false)
      else (st, false)
    | _ =>
      if !(st.sigma id).isUndefined then (st, false)
      else
        match ins.operands.head? with
        | none => (st, false)
        | some op0 =>
          if op0.ty.isStructTy then (st, false)
          else
            let Op0LV := valueStateOf st.sigma op0
            let twoOp : Option (Option LatticeVal) :=
              if ins.operands.length = 2 then
                match ins.operands.get? 1 with
                | some op1 =>
                  if op1.ty.isStructTy then none
                  else
                    let Op1LV := valueStateOf st.sigma op1
                    if Op0LV.isUndefined && Op1LV.isUndefined then none
                    else some (some Op1LV)
                | none => none
              else some none
            match twoOp with
            | none => (st, false)
            | some maybeOp1 =>
              let Op1LV := maybeOp1.getD .undefined
              match ins.opcode with
              | .ZExt | .SIToFP | .UIToFP => (st.forceReg id (nullValue ins.ty), true)
              | .Mul | .And => (st.forceReg id (nullValue ins.ty), true)
              | .Or => (st.forceReg id (allOnesValue ins.ty), true)
              | .SDiv | .UDiv | .SRem | .URem =>
                if Op1LV.isUndefined then (st, false)
                else (st.forceReg id (nullValue ins.ty), true)
              | .AShr =>
                if Op0LV.isUndefined then (st, false)
                else
                  match Op0LV.getConstant with
                  | some c => (st.forceReg id c, true)
                  | none => (st.overdefReg id, true)
              | .LShr | .Shl =>
                if Op0LV.isUndefined then (st, false)
                else (st.forceReg id (nullValue ins.ty), true)
              | .Select =>
                let op2LV := valueStateOf st.sigma
                  ((ins.operands.get? 2).getD (.cnst ins.ty .undefC))
                if Op0LV.isUndefined then
                  let pick := if !Op1LV.isConstant then op2LV else Op1LV
                  match pick.getConstant with
                  | some c => (st.forceReg id c, true)
                  | none => (st.overdefReg id, true)
                else if Op1LV.isUndefined then
                  if op2LV.isUndefined then (st, false)
                  else
                    match op2LV.getConstant with
                    | some c => (st.forceReg id c, true)
                    | none => (st.overdefReg id, true)
                else
                  match Op1LV.getConstant with
                  | some c => (st.forceReg id c, true)
                  | none => (st.overdefReg id, true)
              | .Call => (st.overdefReg id, true)
              | _ => (st, false)

/-- The instruction loop of ResolvedUndefsIn over one block, stopping at the
    first forced decision. -/
def ruiInsts (st : SolverState) : List (Nat × Instr) → SolverState × Bool
  | [] => (st, false)
  | (id, ins) :: rest =>
    let r := ruiInst st id ins
    if r.2 then (r.1, true) else ruiInsts r.1 rest

/-- The terminator handling of SCCPSolver::ResolvedUndefsIn (lines
    1545-1586) for block b.  An unconditional branch, or a switch with fewer
    than two successors, or a condition whose state is not undefined, makes
    no change.  A conditional branch on the literal undef rewrites the
    condition in the IR to ConstantInt false and marks the successor-1 (false)
    edge executable; a conditional branch on a symbolic undefined condition
    forces the condition to false with markForcedConstant.  A switch on the
    literal undef rewrites the condition to the first listed case value and
    marks successor 1 (that case) executable; a switch on a symbolic
    undefined condition forces the condition to the first listed case value.
    All four decisions return true. -/
def ruiTerm (F : Func) (b : Nat) (st : SolverState) : Func × SolverState × Bool :=
  match F.blocks.get? b with
  | none => (F, st, false)
  | some blk =>
    match blk.term with
    | .brCond cond succ0 succ1 =>
      if !(valueStateOf st.sigma cond).isUndefined then (F, st, false)
      else
        match cond with
        | .cnst _ .undefC =>
          let F1 : Func :=
            { blocks := F.blocks.set b { blk with term := .brCond (.cnst .int (.intC 0)) succ0 succ1 } }
          (F1, markEdgeExecutable st b succ1, true)
        | _ => (F, st.forceCond cond (.intC 0), true)
    | .switch cond dflt cases =>
      if cases.length + 1 < 2 then (F, st, false)
      else if !(valueStateOf st.sigma cond).isUndefined then (F, st, false)
      else
        match cases.head? with
        | none => (F, st, false)
        | some (v1, d1) =>
          match cond with
          | .cnst cty .undefC =>
            let F1 : Func :=
              { blocks := F.blocks.set b { blk with term := .switch (.cnst cty (.intC v1)) dflt cases } }
            (F1, markEdgeExecutable st b d1, true)
          | _ => (F, st.forceCond cond (.intC v1), true)
    | _ => (F, st, false)

/-- The block loop of SCCPSolver::ResolvedUndefsIn over the listed block
    indices: non-executable blocks are skipped; within an executable block
    the instruction scan runs first and its first forced decision returns
    true at once; then the terminator handling runs; when nothing in the
    function forces anything the loop returns false. -/
def ruiBlocks (F : Func) (st : SolverState) : List Nat → Func × SolverState × Bool
  | [] => (F, st, false)
  | b :: rest =>
    if !(st.bbexec.contains b) then ruiBlocks F st rest
    else
      match F.blocks.get? b with
      | none => ruiBlocks F st rest
      | some blk =>
        let r := ruiInsts st blk.insts
        if r.2 then (F, r.1, true)
        else
          let t := ruiTerm F b r.1
          if t.2.2 then t else ruiBlocks F r.1 rest

/-- SCCPSolver::ResolvedUndefsIn (lines 1413-1590): scan every block of F in
    order. -/
def resolvedUndefsIn (F : Func) (st : SolverState) : Func × SolverState × Bool :=
  ruiBlocks F st (List.range F.blocks.length)

/-- A constant shape getStructValueState can decompose per field without
    going overdefined: undef, a struct literal, or aggregate zero.  Anything
    else is the "unknown sort of constant" of line 423. -/
def isStructDecomposable : Konst → Bool
  | .undefC => true
  | .structC _ => true
  | .aggZeroC => true
  | _ => false

/-- Resolution of the operand-merge outcome against the current state of the
    join.  Written from the amended claim C1 (the spec merge rule combined
    with the markConstant contract), to be compared with visitPHINode: a scan
    hitting overdefined lands on overdefined; no feasible defined operand
    leaves the state; an agreed constant c lands undefined on Constant(c),
    leaves a state already carrying c alone, sends ForcedConstant of a
    different constant to Overdefined, and is a precondition violation on a
    plain Constant of a different constant. -/
def phiResolve (cur : LatticeVal) : PhiMerge → Option LatticeVal
  | .goesOverdefined => some .overdefined
  | .noOperand => some cur
  | .agreed c =>
    match cur with
    | .undefined => some (.constant c)
    | .constant c0 => if c0 = c then some (.constant c0) else none
    | .forcedconstant c0 =>
      if c = c0 then some (.forcedconstant c0) else some .overdefined
    | .overdefined => some .overdefined

/-- A two-block function: block 0 branches unconditionally to block 1. -/
def F1 : Func := ⟨[⟨[], .brUncond 1⟩, ⟨[], .ret none⟩]⟩

/-- Both blocks executable; register 7 holds ForcedConstant 0; no other
    state. -/
def st1 : SolverState :=
  ⟨[0, 1], fun i => if i = 7 then .forcedconstant (.intC 0) else .undefined,
   fun _ _ => .undefined, []⟩

/-- A PHI node in block 1 held in register 7, with the single incoming value
    constant 1 along the feasible edge from block 0. -/
def pn1 : Phi := ⟨7, 1, [(.cnst .int (.intC 1), 0)]⟩

/-- The outcome of markConstant(c) on a state that is not Overdefined,
    written from the amended claims (the markConstant contract): Constant(c)
    from Undefined, a no-op when the state already carries c, Overdefined
    from ForcedConstant of a different constant, an assertion failure (none)
    on a plain Constant of a different constant.  The Overdefined branch is
    never consulted by the theorems using this. -/
def markConstantOutcome (cur : LatticeVal) (c : Konst) : Option LatticeVal :=
  match cur with
  | .undefined => some (.constant c)
  | .constant c0 => if c0 = c then some (.constant c0) else none
  | .forcedconstant c0 =>
    if c = c0 then some (.forcedconstant c0) else some .overdefined
  | .overdefined => none

/-- The scalar states used by the C7 counterexample: register 0 is
    overdefined. -/
def sigma7 : Nat → LatticeVal :=
  fun i => if i = 0 then .overdefined else .undefined

/-- A three-block function whose entry branches on register 0, still
    undefined at the fixed point: block 0 has successor 0 (the true arm)
    block 1 and successor 1 (the false arm) block 2. -/
def F6 : Func :=
  ⟨[⟨[], .brCond (.reg .int 0) 1 2⟩, ⟨[], .ret none⟩, ⟨[], .ret none⟩]⟩

/-- Only the entry block executable; nothing known. -/
def st6 : SolverState := ⟨[0], fun _ => .undefined, fun _ _ => .undefined, []⟩

/-- A three-block function whose entry branches on the literal undef
    sentinel: block 0 has successor 0 (the true arm) block 1 and successor 1
    (the false arm) block 2, neither yet executable under st6. -/
def F6u : Func :=
  ⟨[⟨[], .brCond (.cnst .int .undefC) 1 2⟩, ⟨[], .ret none⟩, ⟨[], .ret none⟩]⟩

/-- The only condition replacement ResolvedUndefsIn may make in the IR:
    either the condition is unchanged, or it was the literal undef sentinel
    and became an integer-constant literal.  Written from the amended claim
    C8, to be compared with resolvedUndefsIn. -/
def condFrame (c c' : Val) : Prop :=
  c' = c ∨ ((∃ t0, c = .cnst t0 .undefC) ∧ ∃ t1 k, c' = .cnst t1 (.intC k))

/-- Frame relation on terminators: all successors identical, the condition
    related by condFrame, and every other terminator unchanged. -/
def TermFrame : Terminator → Terminator → Prop
  | .brCond c t f, .brCond c' t' f' => condFrame c c' ∧ t' = t ∧ f' = f
  | .switch c dd cs, .switch c' dd' cs' => condFrame c c' ∧ dd' = dd ∧ cs' = cs
  | t, t' => t' = t

/-- Frame relation on blocks: instructions unchanged, terminator related by
    TermFrame. -/
def BlockFrame (b b' : Block) : Prop :=
  b'.insts = b.insts ∧ TermFrame b.term b'.term

/-- Frame relation on functions: blockwise BlockFrame. -/
def FuncFrame (F F' : Func) : Prop :=
  List.Forall₂ BlockFrame F.blocks F'.blocks

/-- A function whose entry block branches on the literal undef sentinel. -/
def F8 : Func := ⟨[⟨[], .brCond (.cnst .int .undefC) 1 1⟩, ⟨[], .ret none⟩]⟩

/-- Entry block executable, nothing else known. -/
def st8 : SolverState := ⟨[0], fun _ => .undefined, fun _ _ => .undefined, []⟩

/-- A function with one executable block holding a struct-typed call result
    in register 5. -/
def F10 : Func :=
  ⟨[⟨[(5, ⟨.strukt [.int], .Call, [.reg .ptr 9]⟩)], .ret none⟩]⟩

/-- Entry block executable, nothing known. -/
def st10 : SolverState := ⟨[0], fun _ => .undefined, fun _ _ => .undefined, []⟩

/-- C2: over a run, the state recorded for a value is non-decreasing in the
    order undefined < constant / forcedconstant < overdefined: markOverdefined
    always lands on overdefined (never below), every successful markConstant
    does not lower the rank, markConstant on an overdefined state is a
    precondition violation (so nothing moves out of overdefined), and
    markForcedConstant succeeds exactly from undefined (its assert), again
    raising the rank. -/
theorem C2_lattice_monotone : ∀ (lv : LatticeVal) (c : Konst),
    ((lv.markOverdefined).2 = .overdefined ∧ lv.rank ≤ ((lv.markOverdefined).2).rank)
  ∧ (∀ b lv', lv.markConstant c = some (b, lv') → lv.rank ≤ lv'.rank)
  ∧ (LatticeVal.overdefined.markConstant c = none)
  ∧ (∀ lv', lv.markForcedConstant c = some lv' → lv = .undefined ∧ lv.rank ≤ lv'.rank)
  ∧ (lv ≠ .undefined → lv.markForcedConstant c = none) := by
  intro lv c
  refine ⟨⟨?_, ?_⟩, ?_, ?_, ?_, ?_⟩
  · cases lv <;> rfl
  · cases lv <;> simp [LatticeVal.markOverdefined, LatticeVal.rank]
  · intro b lv' h
    cases lv with
    | undefined =>
      simp [LatticeVal.markConstant] at h
      simp [h.2.symm, LatticeVal.rank]
    | constant c0 =>
      by_cases hc : c0 = c
      · simp [LatticeVal.markConstant, hc] at h
        simp [h.2.symm, LatticeVal.rank]
      · simp [LatticeVal.markConstant, hc] at h
    | forcedconstant c0 =>
      by_cases hc : c = c0
      · simp [LatticeVal.markConstant, hc] at h
        simp [h.2.symm, LatticeVal.rank]
      · simp [LatticeVal.markConstant, hc] at h
        simp [h.2.symm, LatticeVal.rank]
    | overdefined => simp [LatticeVal.markConstant] at h
  · rfl
  · intro lv' h
    cases lv <;> simp [LatticeVal.markForcedConstant] at h
    simp [h.symm, LatticeVal.rank]
  · intro h
    cases lv <;> simp_all [LatticeVal.markForcedConstant]

/-- Witness for C2_lattice_monotone at concrete inputs, discharging each
    hypothesis. -/
theorem C2_lattice_monotone_witness :
    (LatticeVal.undefined.rank ≤ LatticeVal.rank (.constant (.intC 5)))
  ∧ (LatticeVal.undefined = LatticeVal.undefined ∧
      LatticeVal.undefined.rank ≤ LatticeVal.rank (.forcedconstant (.intC 5)))
  ∧ ((LatticeVal.constant (.intC 5)).markForcedConstant (.intC 5) = none) :=
  ⟨(C2_lattice_monotone .undefined (.intC 5)).2.1 true (.constant (.intC 5)) (by decide),
   (C2_lattice_monotone .undefined (.intC 5)).2.2.2.1 (.forcedconstant (.intC 5)) (by decide),
   (C2_lattice_monotone (.constant (.intC 5)) (.intC 5)).2.2.2.2 (by decide)⟩

/-- C3: LatticeVal::markConstant returns unchanged and leaves the state
    alone when the state is already Constant(c); is an assertion failure
    (none) when called with a different constant on a plain Constant state;
    moves ForcedConstant(c1) with c1 different from c to Overdefined
    returning changed; and moves Undefined to Constant(c) returning
    changed. -/
theorem C3_markConstant_cases : ∀ (lv : LatticeVal) (c : Konst),
    (lv = .constant c → lv.markConstant c = some (false, .constant c))
  ∧ (∀ c', lv = .constant c' → c' ≠ c → lv.markConstant c = none)
  ∧ (∀ c', lv = .forcedconstant c' → c' ≠ c →
      lv.markConstant c = some (true, .overdefined))
  ∧ (lv = .undefined → lv.markConstant c = some (true, .constant c)) := by
  intro lv c
  refine ⟨fun h => ?_, fun c' h hne => ?_, fun c' h hne => ?_, fun h => ?_⟩
  · subst h; simp [LatticeVal.markConstant]
  · subst h; simp [LatticeVal.markConstant, hne]
  · subst h
    have h2 : ¬ (c = c') := fun hh => hne hh.symm
    simp [LatticeVal.markConstant, h2]
  · subst h; rfl

/-- Witness for C3_markConstant_cases at concrete inputs, discharging each
    hypothesis. -/
theorem C3_markConstant_cases_witness :
    ((LatticeVal.constant (.intC 7)).markConstant (.intC 7) =
        some (false, .constant (.intC 7)))
  ∧ ((LatticeVal.constant (.intC 7)).markConstant (.intC 8) = none)
  ∧ ((LatticeVal.forcedconstant (.intC 7)).markConstant (.intC 8) =
        some (true, .overdefined))
  ∧ (LatticeVal.undefined.markConstant (.intC 7) = some (true, .constant (.intC 7))) :=
  ⟨(C3_markConstant_cases (.constant (.intC 7)) (.intC 7)).1 rfl,
   (C3_markConstant_cases (.constant (.intC 7)) (.intC 8)).2.1 (.intC 7) rfl (by decide),
   (C3_markConstant_cases (.forcedconstant (.intC 7)) (.intC 8)).2.2.1 (.intC 7) rfl (by decide),
   (C3_markConstant_cases .undefined (.intC 7)).2.2.2 rfl⟩

/-- C4: mergeInValue implements the merge rule: an undefined incoming value
    changes nothing; an overdefined target changes nothing; an overdefined
    incoming value lands the target on overdefined; a constant merged into an
    undefined target makes the target that constant; two different carried
    constants make the target overdefined; identical carried constants are a
    no-op. -/
theorem C4_mergeInValue_cases : ∀ (IV MergeWithV : LatticeVal),
    (MergeWithV.isUndefined = true → mergeInValue IV MergeWithV = IV)
  ∧ (IV = .overdefined → mergeInValue IV MergeWithV = IV)
  ∧ (MergeWithV = .overdefined → mergeInValue IV MergeWithV = .overdefined)
  ∧ (∀ c, IV = .undefined → MergeWithV.getConstant = some c →
      mergeInValue IV MergeWithV = .constant c)
  ∧ (∀ c c', IV.getConstant = some c → MergeWithV.getConstant = some c' → c ≠ c' →
      mergeInValue IV MergeWithV = .overdefined)
  ∧ (∀ c, IV.getConstant = some c → MergeWithV.getConstant = some c →
      mergeInValue IV MergeWithV = IV) := by
  intro IV MergeWithV
  refine ⟨fun h => ?_, fun h => ?_, fun h => ?_, fun c h1 h2 => ?_,
    fun c c' h1 h2 hne => ?_, fun c h1 h2 => ?_⟩
  · cases MergeWithV <;> simp_all [LatticeVal.isUndefined] <;>
      cases IV <;> rfl
  · subst h; rfl
  · subst h
    cases IV <;>
      simp [mergeInValue, LatticeVal.isUndefined, LatticeVal.isOverdefined,
        LatticeVal.markOverdefined]
  · subst h1
    cases MergeWithV <;> simp_all [LatticeVal.getConstant] <;>
      simp [mergeInValue, LatticeVal.isUndefined, LatticeVal.isOverdefined,
        LatticeVal.getConstant, LatticeVal.markConstant, h2]
  · cases IV <;> simp_all [LatticeVal.getConstant] <;>
      cases MergeWithV <;> simp_all [LatticeVal.getConstant] <;>
      subst h1 <;> subst h2 <;>
      simp [mergeInValue, LatticeVal.isUndefined, LatticeVal.isOverdefined,
        LatticeVal.getConstant, LatticeVal.markOverdefined, hne]
  · cases IV <;> simp_all [LatticeVal.getConstant] <;>
      cases MergeWithV <;> simp_all [LatticeVal.getConstant] <;>
      subst h1 <;> subst h2 <;>
      simp [mergeInValue, LatticeVal.isUndefined, LatticeVal.isOverdefined,
        LatticeVal.getConstant, LatticeVal.markOverdefined]

/-- Witness for C4_mergeInValue_cases at concrete inputs, discharging each
    hypothesis. -/
theorem C4_mergeInValue_cases_witness :
    (mergeInValue (.constant (.intC 3)) .undefined = .constant (.intC 3))
  ∧ (mergeInValue .overdefined (.constant (.intC 3)) = .overdefined)
  ∧ (mergeInValue (.constant (.intC 3)) .overdefined = .overdefined)
  ∧ (mergeInValue .undefined (.forcedconstant (.intC 3)) = .constant (.intC 3))
  ∧ (mergeInValue (.constant (.intC 3)) (.constant (.intC 4)) = .overdefined)
  ∧ (mergeInValue (.forcedconstant (.intC 3)) (.constant (.intC 3)) =
      .forcedconstant (.intC 3)) :=
  ⟨(C4_mergeInValue_cases (.constant (.intC 3)) .undefined).1 rfl,
   (C4_mergeInValue_cases .overdefined (.constant (.intC 3))).2.1 rfl,
   (C4_mergeInValue_cases (.constant (.intC 3)) .overdefined).2.2.1 rfl,
   (C4_mergeInValue_cases .undefined (.forcedconstant (.intC 3))).2.2.2.1
     (.intC 3) rfl rfl,
   (C4_mergeInValue_cases (.constant (.intC 3)) (.constant (.intC 4))).2.2.2.2.1
     (.intC 3) (.intC 4) rfl rfl (by decide),
   (C4_mergeInValue_cases (.forcedconstant (.intC 3)) (.constant (.intC 3))).2.2.2.2.2
     (.intC 3) rfl rfl⟩

/-- C9 counterexample: the claim sends fields of "any other constant shape"
    (anything other than a struct literal or aggregate zero) to Overdefined,
    but on the first access to field 0 of the undef sentinel of a
    single-field struct type, getStructValueState seeds the field to
    Undefined (line 415: undef values remain undefined), not Overdefined. -/
theorem C9_cex :
    (getStructValueState [] (Val.cnst (.strukt [.int]) .undefC) 0).map Prod.fst =
      some LatticeVal.undefined
  ∧ ¬ ((getStructValueState [] (Val.cnst (.strukt [.int]) .undefC) 0).map Prod.fst =
      some LatticeVal.overdefined) := by decide

/-- C9 amended: on a first access (no entry yet), getValueState seeds a
    literal constant other than the undef sentinel to Constant(itself) and
    seeds the undef sentinel and every register to Undefined; and
    getStructValueState seeds field i of a struct literal to Constant of its
    i-th sub-constant, seeds field i of an aggregate-zero literal to Constant
    of the null value of the field type, seeds every field of the undef
    sentinel to Undefined, seeds fields of any other constant shape to
    Overdefined, and seeds fields of registers to Undefined. -/
theorem C9_lazy_seeding_amended :
    (∀ (VS : List (Val × LatticeVal)) (V : Val), VS.lookup V = none →
        (∀ t c, V = .cnst t c → t.isStructTy = false → c ≠ .undefC →
          (getValueState VS V).map Prod.fst = some (.constant c))
      ∧ (∀ t, V = .cnst t .undefC → t.isStructTy = false →
          (getValueState VS V).map Prod.fst = some .undefined)
      ∧ (∀ t i, V = .reg t i → t.isStructTy = false →
          (getValueState VS V).map Prod.fst = some .undefined))
  ∧ (∀ (SVS : List ((Val × Nat) × LatticeVal)) (V : Val) (i : Nat)
        (fieldTys : List Ty), SVS.lookup (V, i) = none →
        V.ty = .strukt fieldTys → i < fieldTys.length →
        (∀ t fields sub, V = .cnst t (.structC fields) → fields.get? i = some sub →
          (getStructValueState SVS V i).map Prod.fst = some (.constant sub))
      ∧ (∀ t ft, V = .cnst t .aggZeroC → fieldTys.get? i = some ft →
          (getStructValueState SVS V i).map Prod.fst = some (.constant (nullValue ft)))
      ∧ (∀ t, V = .cnst t .undefC →
          (getStructValueState SVS V i).map Prod.fst = some .undefined)
      ∧ (∀ t c, V = .cnst t c → isStructDecomposable c = false →
          (getStructValueState SVS V i).map Prod.fst = some .overdefined)
      ∧ (∀ t j, V = .reg t j →
          (getStructValueState SVS V i).map Prod.fst = some .undefined)) := by
  constructor
  · intro VS V hlook
    refine ⟨fun t c hV ht hc => ?_, fun t hV ht => ?_, fun t i hV ht => ?_⟩
    · subst hV
      simp [getValueState, Val.ty, ht, hlook, hc, LatticeVal.markConstant]
    · subst hV
      simp [getValueState, Val.ty, ht, hlook]
    · subst hV
      simp [getValueState, Val.ty, ht, hlook]
  · intro SVS V i fieldTys hlook hty hi
    refine ⟨fun t fields sub hV hsub => ?_, fun t ft hV hft => ?_,
      fun t hV => ?_, fun t c hV hc => ?_, fun t j hV => ?_⟩
    · subst hV
      simp [Val.ty] at hty
      subst hty
      rw [List.get?_eq_getElem?] at hsub
      simp [getStructValueState, Val.ty, hi, hlook, hsub, LatticeVal.markConstant]
    · subst hV
      simp [Val.ty] at hty
      subst hty
      have hgt : fieldTys[i] = ft := by
        have hg := List.get?_eq_get hi
        rw [hg] at hft
        exact Option.some.inj hft
      simp [getStructValueState, Val.ty, hi, hlook, hgt, LatticeVal.markConstant]
    · subst hV
      simp [Val.ty] at hty
      subst hty
      simp [getStructValueState, Val.ty, hi, hlook]
    · subst hV
      simp [Val.ty] at hty
      subst hty
      cases c with
      | intC n =>
        simp [getStructValueState, Val.ty, hi, hlook, LatticeVal.markOverdefined]
      | nullOther t2 =>
        simp [getStructValueState, Val.ty, hi, hlook, LatticeVal.markOverdefined]
      | otherC n =>
        simp [getStructValueState, Val.ty, hi, hlook, LatticeVal.markOverdefined]
      | undefC => simp [isStructDecomposable] at hc
      | structC fs => simp [isStructDecomposable] at hc
      | aggZeroC => simp [isStructDecomposable] at hc
    · subst hV
      simp [Val.ty] at hty
      subst hty
      simp [getStructValueState, Val.ty, hi, hlook]

/-- Witness for C9_lazy_seeding_amended at concrete inputs, discharging each
    hypothesis. -/
theorem C9_lazy_seeding_amended_witness :
    ((getValueState [] (Val.cnst .int (.intC 4))).map Prod.fst =
        some (.constant (.intC 4)))
  ∧ ((getValueState [] (Val.cnst .int .undefC)).map Prod.fst = some .undefined)
  ∧ ((getValueState [] (Val.reg .int 3)).map Prod.fst = some .undefined)
  ∧ ((getStructValueState [] (Val.cnst (.strukt [.int, .ptr]) (.structC [.intC 9, .undefC])) 0).map
        Prod.fst = some (.constant (.intC 9)))
  ∧ ((getStructValueState [] (Val.cnst (.strukt [.int, .ptr]) .aggZeroC) 1).map
        Prod.fst = some (.constant (nullValue .ptr)))
  ∧ ((getStructValueState [] (Val.cnst (.strukt [.int, .ptr]) (.otherC 2)) 0).map
        Prod.fst = some .overdefined)
  ∧ ((getStructValueState [] (Val.reg (.strukt [.int, .ptr]) 3) 0).map
        Prod.fst = some .undefined) :=
  ⟨(C9_lazy_seeding_amended.1 [] (Val.cnst .int (.intC 4)) rfl).1 .int (.intC 4)
      rfl rfl (by decide),
   (C9_lazy_seeding_amended.1 [] (Val.cnst .int .undefC) rfl).2.1 .int rfl rfl,
   (C9_lazy_seeding_amended.1 [] (Val.reg .int 3) rfl).2.2 .int 3 rfl rfl,
   (C9_lazy_seeding_amended.2 [] (Val.cnst (.strukt [.int, .ptr])
      (.structC [.intC 9, .undefC])) 0 [.int, .ptr] rfl rfl (by decide)).1
      (.strukt [.int, .ptr]) [.intC 9, .undefC] (.intC 9) rfl rfl,
   (C9_lazy_seeding_amended.2 [] (Val.cnst (.strukt [.int, .ptr]) .aggZeroC) 1
      [.int, .ptr] rfl rfl (by decide)).2.1 (.strukt [.int, .ptr]) .ptr rfl rfl,
   (C9_lazy_seeding_amended.2 [] (Val.cnst (.strukt [.int, .ptr]) (.otherC 2)) 0
      [.int, .ptr] rfl rfl (by decide)).2.2.2.1 (.strukt [.int, .ptr]) (.otherC 2)
      rfl rfl,
   (C9_lazy_seeding_amended.2 [] (Val.reg (.strukt [.int, .ptr]) 3) 0
      [.int, .ptr] rfl rfl (by decide)).2.2.2.2 (.strukt [.int, .ptr]) 3 rfl⟩

/-- A found case index is within the case list. -/
theorem findCaseIdx_lt : ∀ (cases : List (Int × Nat)) (n : Int) (i : Nat),
    findCaseIdx cases n = some i → i < cases.length := by
  intro cases n
  induction cases with
  | nil => intro i h; simp [findCaseIdx] at h
  | cons c cs ih =>
    intro i h
    by_cases hc : c.1 = n
    · simp [findCaseIdx, hc] at h
      simp [List.length_cons]
      omega
    · simp only [findCaseIdx, if_neg hc] at h
      cases hidx : findCaseIdx cs n with
      | none => rw [hidx] at h; simp at h
      | some j =>
        rw [hidx] at h
        simp at h
        have := ih j hidx
        simp [List.length_cons]
        omega

/-- The findCaseValue successor index is always within the successor
    count. -/
theorem findCaseValue_lt : ∀ (cases : List (Int × Nat)) (n : Int),
    findCaseValue cases n < cases.length + 1 := by
  intro cases n
  unfold findCaseValue
  cases hidx : findCaseIdx cases n with
  | none => simp
  | some i =>
    have := findCaseIdx_lt cases n i hidx
    simp
    omega

/-- Reading back the position just set. -/
theorem getElem_set_true : ∀ (l : List Bool) (k : Nat), k < l.length →
    (l.set k true)[k]? = some true := by
  intro l
  induction l with
  | nil => intro k hk; simp at hk
  | cons a l ih =>
    intro k hk
    cases k with
    | zero => simp
    | succ k => simpa using ih k (by simpa using hk)

/-- Setting one position of an all-false list to true leaves exactly one
    true entry. -/
theorem count_true_set_replicate_false : ∀ (m k : Nat), k < m →
    ((List.replicate m false).set k true).count true = 1 := by
  intro m
  induction m with
  | zero => omega
  | succ m ih =>
    intro k hk
    cases k with
    | zero =>
      simp [List.replicate_succ, List.count_cons, List.count_replicate]
    | succ k =>
      simp only [List.replicate_succ, List.set_cons_succ, List.count_cons]
      rw [ih k (by omega)]
      simp

/-- C5 counterexample: the claim gives a conditional branch whose condition
    lattice state is a Constant exactly one feasible successor; but a branch
    whose condition carries a constant that is not a ConstantInt (here an
    opaque constant expression) is treated like overdefined by
    getFeasibleSuccessors (lines 560-566: unfoldable constant conditions can
    go either way) and has both successors feasible. -/
theorem C5_cex :
    (valueStateOf (fun _ => LatticeVal.undefined)
        (Val.cnst .int (.otherC 0))).isConstant = true
  ∧ getFeasibleSuccessors (fun _ => LatticeVal.undefined)
      (.brCond (.cnst .int (.otherC 0)) 1 2) = [true, true]
  ∧ ¬ ((getFeasibleSuccessors (fun _ => LatticeVal.undefined)
      (.brCond (.cnst .int (.otherC 0)) 1 2)).count true = 1) := by decide

/-- C5 amended: getFeasibleSuccessors computes: an unconditional branch has
    its single successor feasible; a conditional branch whose condition state
    carries a ConstantInt has exactly one feasible successor, successor 0
    when the constant is nonzero and successor 1 when it is zero; a condition
    in state Undefined makes no successor feasible; any other condition state
    (Overdefined, or a Constant that is not a ConstantInt) makes both
    feasible.  A switch on a ConstantInt condition has exactly one feasible
    successor, the first matching case or the default when no case matches;
    Undefined makes none feasible and Overdefined or a non-ConstantInt
    constant makes all feasible.  An indirectbr has every destination
    feasible. -/
theorem C5_feasible_successors_amended :
    ∀ (sigma : Nat → LatticeVal) (cond : Val) (d s0 s1 dflt : Nat)
      (cases : List (Int × Nat)) (dests : List Nat),
    (getFeasibleSuccessors sigma (.brUncond d) = [true])
  ∧ ((valueStateOf sigma cond).isUndefined = true →
      getFeasibleSuccessors sigma (.brCond cond s0 s1) = [false, false])
  ∧ (∀ n, (valueStateOf sigma cond).getConstantInt = some n →
      ((getFeasibleSuccessors sigma (.brCond cond s0 s1)).count true = 1
        ∧ (getFeasibleSuccessors sigma (.brCond cond s0 s1)).get?
            (if n = 0 then 1 else 0) = some true))
  ∧ ((valueStateOf sigma cond).isUndefined = false →
      (valueStateOf sigma cond).getConstantInt = none →
      getFeasibleSuccessors sigma (.brCond cond s0 s1) = [true, true])
  ∧ ((valueStateOf sigma cond).isUndefined = true →
      getFeasibleSuccessors sigma (.switch cond dflt cases) =
        List.replicate (cases.length + 1) false)
  ∧ (∀ n, (valueStateOf sigma cond).getConstantInt = some n →
      ((getFeasibleSuccessors sigma (.switch cond dflt cases)).count true = 1
        ∧ (getFeasibleSuccessors sigma (.switch cond dflt cases)).get?
            (findCaseValue cases n) = some true))
  ∧ ((valueStateOf sigma cond).isUndefined = false →
      (valueStateOf sigma cond).getConstantInt = none →
      getFeasibleSuccessors sigma (.switch cond dflt cases) =
        List.replicate (cases.length + 1) true)
  ∧ (getFeasibleSuccessors sigma (.indirectBr dests) =
      List.replicate dests.length true) := by
  intro sigma cond d s0 s1 dflt cases dests
  refine ⟨rfl, fun hu => ?_, fun n hn => ?_, fun hu hn => ?_, fun hu => ?_,
    fun n hn => ?_, fun hu hn => ?_, rfl⟩
  · have : (valueStateOf sigma cond).getConstantInt = none := by
      cases h : valueStateOf sigma cond <;> simp_all [LatticeVal.isUndefined,
        LatticeVal.getConstantInt]
    simp [getFeasibleSuccessors, this, hu]
  · constructor
    · simp [getFeasibleSuccessors, hn]
      by_cases h0 : n = 0 <;> simp [h0]
    · simp [getFeasibleSuccessors, hn]
      by_cases h0 : n = 0 <;> simp [h0]
  · simp [getFeasibleSuccessors, hn, hu]
  · have : (valueStateOf sigma cond).getConstantInt = none := by
      cases h : valueStateOf sigma cond <;> simp_all [LatticeVal.isUndefined,
        LatticeVal.getConstantInt]
    simp [getFeasibleSuccessors, this, hu]
  · constructor
    · simp only [getFeasibleSuccessors, hn]
      exact count_true_set_replicate_false _ _ (by
        simpa using findCaseValue_lt cases n)
    · simp only [getFeasibleSuccessors, hn]
      rw [List.get?_eq_getElem?]
      exact getElem_set_true _ _ (by simpa using findCaseValue_lt cases n)
  · simp [getFeasibleSuccessors, hn, hu]

/-- Witness for C5_feasible_successors_amended at concrete inputs,
    discharging each hypothesis. -/
theorem C5_feasible_successors_amended_witness :
    (getFeasibleSuccessors (fun _ => LatticeVal.undefined)
        (.brCond (.reg .int 0) 1 2) = [false, false])
  ∧ ((getFeasibleSuccessors (fun _ => LatticeVal.constant (.intC 1))
        (.brCond (.reg .int 0) 1 2)).count true = 1)
  ∧ (getFeasibleSuccessors (fun _ => LatticeVal.overdefined)
        (.brCond (.reg .int 0) 1 2) = [true, true])
  ∧ ((getFeasibleSuccessors (fun _ => LatticeVal.constant (.intC 5))
        (.switch (.reg .int 0) 3 [(4, 7), (5, 8)])).get?
          (findCaseValue [(4, 7), (5, 8)] 5) = some true) :=
  ⟨(C5_feasible_successors_amended (fun _ => LatticeVal.undefined)
      (.reg .int 0) 0 1 2 3 [] []).2.1 rfl,
   ((C5_feasible_successors_amended (fun _ => LatticeVal.constant (.intC 1))
      (.reg .int 0) 0 1 2 3 [] []).2.2.1 1 rfl).1,
   (C5_feasible_successors_amended (fun _ => LatticeVal.overdefined)
      (.reg .int 0) 0 1 2 3 [] []).2.2.2.1 rfl rfl,
   ((C5_feasible_successors_amended (fun _ => LatticeVal.constant (.intC 5))
      (.reg .int 0) 0 1 2 3 [(4, 7), (5, 8)] []).2.2.2.2.2.1 5 rfl).2⟩

/-- C1 counterexample: a PHI node whose current state is ForcedConstant(0)
    (not Overdefined) with fan-in 1, whose only operand arrives along a
    feasible edge carrying Constant(1): the operand merge is the single
    constant 1, so the claim says the join becomes Constant(1); but
    visitPHINode runs markConstant(1) on ForcedConstant(0) and the join
    becomes Overdefined (lines 119-129). -/
theorem C1_cex :
    (st1.sigma pn1.id).isOverdefined = false
  ∧ pn1.incoming.length ≤ 64
  ∧ phiLoopAux (fun pred => isEdgeFeasible F1 st1 pred pn1.parent)
      (valueStateOf st1.sigma) pn1.incoming none = .agreed (.intC 1)
  ∧ visitPHINode F1 st1 pn1 = some .overdefined
  ∧ ¬ (visitPHINode F1 st1 pn1 = some (.constant (.intC 1))
      ∨ visitPHINode F1 st1 pn1 = some (.forcedconstant (.intC 1))) := by decide

/-- C1 amended: for a PHI node whose current lattice state is not Overdefined
    and whose fan-in is at most 64, visitPHINode resolves the merge of the
    operands arriving along feasible incoming edges with defined states
    against the current state: any overdefined contribution or two different
    constants give Overdefined; no contributing operand leaves the state
    unchanged; an agreed constant c gives Constant(c) from Undefined, is a
    no-op on a state already carrying c, gives Overdefined from
    ForcedConstant of a different constant, and is an assertion failure on a
    plain Constant of a different constant. -/
theorem C1_phi_amended : ∀ (F : Func) (st : SolverState) (pn : Phi),
    (st.sigma pn.id).isOverdefined = false →
    pn.incoming.length ≤ 64 →
    visitPHINode F st pn =
      phiResolve (st.sigma pn.id)
        (phiLoopAux (fun pred => isEdgeFeasible F st pred pn.parent)
          (valueStateOf st.sigma) pn.incoming none) := by
  intro F st pn h1 h2
  have h64 : ¬ (pn.incoming.length > 64) := by omega
  simp only [visitPHINode]
  rw [if_neg (by simp [h1]), if_neg (by simpa using h64)]
  cases hm : phiLoopAux (fun pred => isEdgeFeasible F st pred pn.parent)
      (valueStateOf st.sigma) pn.incoming none with
  | goesOverdefined =>
    cases hcur : st.sigma pn.id <;>
      simp [phiResolve, LatticeVal.markOverdefined]
  | noOperand => simp [phiResolve]
  | agreed c =>
    cases hcur : st.sigma pn.id with
    | undefined => simp [phiResolve, LatticeVal.markConstant]
    | constant c0 =>
      by_cases hc : c0 = c <;> simp [phiResolve, LatticeVal.markConstant, hc]
    | forcedconstant c0 =>
      by_cases hc : c = c0 <;> simp [phiResolve, LatticeVal.markConstant, hc]
    | overdefined => rw [hcur] at h1; simp [LatticeVal.isOverdefined] at h1

/-- Witness for C1_phi_amended at the concrete join of C1_cex. -/
theorem C1_phi_amended_witness :
    visitPHINode F1 st1 pn1 =
      phiResolve (st1.sigma pn1.id)
        (phiLoopAux (fun pred => isEdgeFeasible F1 st1 pred pn1.parent)
          (valueStateOf st1.sigma) pn1.incoming none) :=
  C1_phi_amended F1 st1 pn1 (by decide) (by decide)

/-- C7 counterexample: an AND whose first operand is Overdefined and whose
    second operand is the literal constant 0, but whose own state is already
    Overdefined: visitBinaryOperator returns at line 900 and the result stays
    Overdefined instead of being marked Constant(0). -/
theorem C7_cex :
    (valueStateOf sigma7 (Val.reg .int 0)).isOverdefined = true
  ∧ (valueStateOf sigma7 (Val.cnst .int (.intC 0))).getConstant = some (.intC 0)
  ∧ Konst.isNullValue (.intC 0) = true
  ∧ visitBinaryOperator (fun _ => none) sigma7 .int .And (.reg .int 0)
      (.cnst .int (.intC 0)) .overdefined = some .overdefined
  ∧ ¬ (visitBinaryOperator (fun _ => none) sigma7 .int .And (.reg .int 0)
      (.cnst .int (.intC 0)) .overdefined = some (.constant (.intC 0))) := by decide

/-- C7 amended: for a binary AND (respectively OR) with one operand
    Overdefined and the other carrying a null constant (respectively the
    all-ones ConstantInt), visitBinaryOperator applies markConstant with that
    constant - so the result becomes that Constant from Undefined, stays put
    when already carrying it, and escalates to Overdefined from a
    ForcedConstant of a different constant - provided the instruction is not
    already Overdefined; an already Overdefined instruction is left
    Overdefined regardless of its operands. -/
theorem C7_andor_annihilator_amended : ∀ (phiOf : Nat → Option Phi)
    (sigma : Nat → LatticeVal) (ty : Ty) (v1 v2 : Val) (cur : LatticeVal)
    (c : Konst),
    (cur = .overdefined → ∀ op,
      visitBinaryOperator phiOf sigma ty op v1 v2 cur = some .overdefined)
  ∧ (cur.isOverdefined = false →
      ((valueStateOf sigma v1).isOverdefined = true →
        (valueStateOf sigma v2).getConstant = some c → c.isNullValue = true →
        visitBinaryOperator phiOf sigma ty .And v1 v2 cur =
          markConstantOutcome cur c)
    ∧ ((valueStateOf sigma v2).isOverdefined = true →
        (valueStateOf sigma v1).getConstant = some c → c.isNullValue = true →
        visitBinaryOperator phiOf sigma ty .And v1 v2 cur =
          markConstantOutcome cur c)
    ∧ ((valueStateOf sigma v1).isOverdefined = true →
        (valueStateOf sigma v2).getConstant = some (.intC (-1)) →
        visitBinaryOperator phiOf sigma ty .Or v1 v2 cur =
          markConstantOutcome cur (.intC (-1)))
    ∧ ((valueStateOf sigma v2).isOverdefined = true →
        (valueStateOf sigma v1).getConstant = some (.intC (-1)) →
        visitBinaryOperator phiOf sigma ty .Or v1 v2 cur =
          markConstantOutcome cur (.intC (-1)))) := by
  intro phiOf sigma ty v1 v2 cur c
  constructor
  · intro hcur op
    subst hcur
    simp [visitBinaryOperator, LatticeVal.isOverdefined]
  · intro hcur
    have hmark : ∀ c1, (cur.markConstant c1).map Prod.snd = markConstantOutcome cur c1 := by
      intro c1
      cases cur with
      | undefined => simp [LatticeVal.markConstant, markConstantOutcome]
      | constant c0 =>
        by_cases hc : c0 = c1 <;>
          simp [LatticeVal.markConstant, markConstantOutcome, hc]
      | forcedconstant c0 =>
        by_cases hc : c1 = c0 <;>
          simp [LatticeVal.markConstant, markConstantOutcome, hc]
      | overdefined => simp [LatticeVal.isOverdefined] at hcur
    refine ⟨fun h1 h2 hnull => ?_, fun h1 h2 hnull => ?_,
      fun h1 h2 => ?_, fun h1 h2 => ?_⟩
    · have e1 : valueStateOf sigma v1 = .overdefined := by
        cases h : valueStateOf sigma v1 <;> simp_all [LatticeVal.isOverdefined]
      cases hv2 : valueStateOf sigma v2 with
      | undefined => rw [hv2] at h2; simp [LatticeVal.getConstant] at h2
      | overdefined => rw [hv2] at h2; simp [LatticeVal.getConstant] at h2
      | constant c2 =>
        rw [hv2] at h2
        simp [LatticeVal.getConstant] at h2
        subst h2
        cases cur <;> simp_all [visitBinaryOperator, e1, hv2, hnull, hmark,
          LatticeVal.getConstant, LatticeVal.isUndefined, LatticeVal.isOverdefined]
      | forcedconstant c2 =>
        rw [hv2] at h2
        simp [LatticeVal.getConstant] at h2
        subst h2
        cases cur <;> simp_all [visitBinaryOperator, e1, hv2, hnull, hmark,
          LatticeVal.getConstant, LatticeVal.isUndefined, LatticeVal.isOverdefined]
    · have e2 : valueStateOf sigma v2 = .overdefined := by
        cases h : valueStateOf sigma v2 <;> simp_all [LatticeVal.isOverdefined]
      cases hv1 : valueStateOf sigma v1 with
      | undefined => rw [hv1] at h2; simp [LatticeVal.getConstant] at h2
      | overdefined => rw [hv1] at h2; simp [LatticeVal.getConstant] at h2
      | constant c2 =>
        rw [hv1] at h2
        simp [LatticeVal.getConstant] at h2
        subst h2
        cases cur <;> simp_all [visitBinaryOperator, e2, hv1, hnull, hmark,
          LatticeVal.getConstant, LatticeVal.isUndefined, LatticeVal.isOverdefined]
      | forcedconstant c2 =>
        rw [hv1] at h2
        simp [LatticeVal.getConstant] at h2
        subst h2
        cases cur <;> simp_all [visitBinaryOperator, e2, hv1, hnull, hmark,
          LatticeVal.getConstant, LatticeVal.isUndefined, LatticeVal.isOverdefined]
    · have e1 : valueStateOf sigma v1 = .overdefined := by
        cases h : valueStateOf sigma v1 <;> simp_all [LatticeVal.isOverdefined]
      cases hv2 : valueStateOf sigma v2 with
      | undefined => rw [hv2] at h2; simp [LatticeVal.getConstant] at h2
      | overdefined => rw [hv2] at h2; simp [LatticeVal.getConstant] at h2
      | constant c2 =>
        rw [hv2] at h2
        simp [LatticeVal.getConstant] at h2
        subst h2
        cases cur <;> simp_all [visitBinaryOperator, e1, hv2, hmark,
          LatticeVal.getConstant, LatticeVal.isUndefined, LatticeVal.isOverdefined]
      | forcedconstant c2 =>
        rw [hv2] at h2
        simp [LatticeVal.getConstant] at h2
        subst h2
        cases cur <;> simp_all [visitBinaryOperator, e1, hv2, hmark,
          LatticeVal.getConstant, LatticeVal.isUndefined, LatticeVal.isOverdefined]
    · have e2 : valueStateOf sigma v2 = .overdefined := by
        cases h : valueStateOf sigma v2 <;> simp_all [LatticeVal.isOverdefined]
      cases hv1 : valueStateOf sigma v1 with
      | undefined => rw [hv1] at h2; simp [LatticeVal.getConstant] at h2
      | overdefined => rw [hv1] at h2; simp [LatticeVal.getConstant] at h2
      | constant c2 =>
        rw [hv1] at h2
        simp [LatticeVal.getConstant] at h2
        subst h2
        cases cur <;> simp_all [visitBinaryOperator, e2, hv1, hmark,
          LatticeVal.getConstant, LatticeVal.isUndefined, LatticeVal.isOverdefined]
      | forcedconstant c2 =>
        rw [hv1] at h2
        simp [LatticeVal.getConstant] at h2
        subst h2
        cases cur <;> simp_all [visitBinaryOperator, e2, hv1, hmark,
          LatticeVal.getConstant, LatticeVal.isUndefined, LatticeVal.isOverdefined]

/-- Witness for C7_andor_annihilator_amended at concrete inputs, discharging
    each hypothesis: an AND of an overdefined register with the literal 0 on
    an Undefined instruction is marked Constant(0), and the symmetric OR case
    with all-ones is marked Constant(-1). -/
theorem C7_andor_annihilator_amended_witness :
    (visitBinaryOperator (fun _ => none) sigma7 .int .And (.reg .int 0)
      (.cnst .int (.intC 0)) .undefined = some (.constant (.intC 0)))
  ∧ (visitBinaryOperator (fun _ => none) sigma7 .int .Or (.cnst .int (.intC (-1)))
      (.reg .int 0) .undefined = some (.constant (.intC (-1))))
  ∧ (visitBinaryOperator (fun _ => none) sigma7 .int .And (.reg .int 0)
      (.cnst .int (.intC 0)) .overdefined = some .overdefined) :=
  ⟨((C7_andor_annihilator_amended (fun _ => none) sigma7 .int (.reg .int 0)
      (.cnst .int (.intC 0)) .undefined (.intC 0)).2 rfl).1 rfl rfl rfl,
   ((C7_andor_annihilator_amended (fun _ => none) sigma7 .int
      (.cnst .int (.intC (-1))) (.reg .int 0) .undefined (.intC (-1))).2
      rfl).2.2.2 rfl rfl,
   (C7_andor_annihilator_amended (fun _ => none) sigma7 .int (.reg .int 0)
      (.cnst .int (.intC 0)) .overdefined (.intC 0)).1 rfl .And⟩

/-- The edge handed to markEdgeExecutable is in the resulting feasible-edge
    set. -/
theorem mem_edges_markEdgeExecutable : ∀ (st : SolverState) (src dst : Nat),
    (src, dst) ∈ (markEdgeExecutable st src dst).edges := by
  intro st src dst
  simp only [markEdgeExecutable]
  by_cases h : st.edges.contains (src, dst) = true
  · rw [if_pos h]
    exact List.mem_of_elem_eq_true h
  · rw [if_neg h]
    split
    all_goals exact List.mem_cons_self _ _

/-- markEdgeExecutable writes no scalar lattice state. -/
theorem sigma_markEdgeExecutable : ∀ (st : SolverState) (src dst : Nat),
    (markEdgeExecutable st src dst).sigma = st.sigma := by
  intro st src dst
  simp only [markEdgeExecutable]
  by_cases h : st.edges.contains (src, dst) = true
  · rw [if_pos h]
  · rw [if_neg h]
    split
    all_goals rfl

/-- C6 counterexample: ResolvedUndefsIn on a conditional branch with a
    symbolic still-undefined condition forces the condition to false via
    markForcedConstant, which selects successor index 1 (the false arm):
    afterwards the feasible-successor vector of the branch is [false, true],
    so the branch is not forced down the lowest-indexed successor (index 0)
    as the claim states. -/
theorem C6_cex :
    (resolvedUndefsIn F6 st6).2.2 = true
  ∧ (resolvedUndefsIn F6 st6).2.1.sigma 0 = .forcedconstant (.intC 0)
  ∧ getFeasibleSuccessors (resolvedUndefsIn F6 st6).2.1.sigma
      (.brCond (.reg .int 0) 1 2) = [false, true]
  ∧ ¬ (getFeasibleSuccessors (resolvedUndefsIn F6 st6).2.1.sigma
      (.brCond (.reg .int 0) 1 2)).get? 0 = some true := by decide

/-- C6 amended: when the fixed point leaves the condition of a conditional
    branch (or of a switch with at least one case) in an executable block
    still Undefined, the terminator handling of ResolvedUndefsIn forces the
    branch down successor index 1 - the false arm of a branch, the first
    listed case of a switch - not the lowest-indexed successor.  A symbolic
    condition is forced via markForcedConstant to false (respectively to the
    first case value), leaving the IR untouched, after which only successor 1
    of that terminator is feasible; a condition that is the literal undef
    sentinel is instead rewritten in place (setCondition) to that constant
    and the successor-1 edge is marked executable directly - with no scalar
    lattice change provided that successor was not yet executable (when it
    already is, the source additionally re-runs visitPHINode on its PHI
    nodes, which may raise their lattice states; that path is outside this
    statement). -/
theorem C6_forced_edges_amended : ∀ (F : Func) (st : SolverState) (b : Nat)
    (blk : Block) (ty cty : Ty) (i t f dflt : Nat) (v1 : Int) (d1 : Nat)
    (cs : List (Int × Nat)),
    F.blocks.get? b = some blk →
    ((blk.term = .brCond (.reg ty i) t f → st.sigma i = .undefined →
        ((ruiTerm F b st).1 = F
      ∧ (ruiTerm F b st).2.2 = true
      ∧ (ruiTerm F b st).2.1.sigma i = .forcedconstant (.intC 0)
      ∧ (∀ j, j ≠ i → (ruiTerm F b st).2.1.sigma j = st.sigma j)
      ∧ (ruiTerm F b st).2.1.edges = st.edges
      ∧ getFeasibleSuccessors (ruiTerm F b st).2.1.sigma
          (.brCond (.reg ty i) t f) = [false, true]))
  ∧ (blk.term = .brCond (.cnst cty .undefC) t f →
        st.bbexec.contains f = false →
        ((ruiTerm F b st).2.2 = true
      ∧ (ruiTerm F b st).1.blocks =
          F.blocks.set b { blk with term := .brCond (.cnst .int (.intC 0)) t f }
      ∧ (ruiTerm F b st).2.1.sigma = st.sigma
      ∧ (b, f) ∈ (ruiTerm F b st).2.1.edges))
  ∧ (blk.term = .switch (.reg ty i) dflt ((v1, d1) :: cs) →
        st.sigma i = .undefined →
        ((ruiTerm F b st).1 = F
      ∧ (ruiTerm F b st).2.2 = true
      ∧ (ruiTerm F b st).2.1.sigma i = .forcedconstant (.intC v1)
      ∧ (∀ j, j ≠ i → (ruiTerm F b st).2.1.sigma j = st.sigma j)
      ∧ getFeasibleSuccessors (ruiTerm F b st).2.1.sigma
          (.switch (.reg ty i) dflt ((v1, d1) :: cs)) =
            (List.replicate (cs.length + 2) false).set 1 true))
  ∧ (blk.term = .switch (.cnst cty .undefC) dflt ((v1, d1) :: cs) →
        st.bbexec.contains d1 = false →
        ((ruiTerm F b st).2.2 = true
      ∧ (ruiTerm F b st).1.blocks =
          F.blocks.set b
            { blk with term := .switch (.cnst cty (.intC v1)) dflt ((v1, d1) :: cs) }
      ∧ (ruiTerm F b st).2.1.sigma = st.sigma
      ∧ (b, d1) ∈ (ruiTerm F b st).2.1.edges))) := by
  intro F st b blk ty cty i t f dflt v1 d1 cs hget
  rw [List.get?_eq_getElem?] at hget
  refine ⟨fun hterm hu => ?_, fun hterm _hnx => ?_, fun hterm hu => ?_,
    fun hterm _hnx => ?_⟩
  · have hrt : ruiTerm F b st = (F, st.forceReg i (.intC 0), true) := by
      simp [ruiTerm, hget, hterm, valueStateOf, hu, LatticeVal.isUndefined,
        SolverState.forceCond]
    refine ⟨by simp [hrt], by simp [hrt], ?_, ?_, ?_, ?_⟩
    · simp [hrt, SolverState.forceReg, hu, LatticeVal.markForcedConstant]
    · intro j hj
      simp [hrt, SolverState.forceReg, hj]
    · simp [hrt, SolverState.forceReg]
    · have : (st.forceReg i (.intC 0)).sigma i = .forcedconstant (.intC 0) := by
        simp [SolverState.forceReg, hu, LatticeVal.markForcedConstant]
      simp [hrt, getFeasibleSuccessors, valueStateOf, this,
        LatticeVal.getConstantInt]
  · have hrt : ruiTerm F b st =
        ({ blocks := F.blocks.set b
            { blk with term := .brCond (.cnst .int (.intC 0)) t f } },
         markEdgeExecutable st b f, true) := by
      simp [ruiTerm, hget, hterm, valueStateOf, LatticeVal.isUndefined]
    refine ⟨by simp [hrt], by simp [hrt], ?_, ?_⟩
    · simp [hrt, sigma_markEdgeExecutable]
    · simp only [hrt]
      exact mem_edges_markEdgeExecutable st b f
  · have hrt : ruiTerm F b st = (F, st.forceReg i (.intC v1), true) := by
      simp [ruiTerm, hget, hterm, valueStateOf, hu, LatticeVal.isUndefined,
        SolverState.forceCond]
    refine ⟨by simp [hrt], by simp [hrt], ?_, ?_, ?_⟩
    · simp [hrt, SolverState.forceReg, hu, LatticeVal.markForcedConstant]
    · intro j hj
      simp [hrt, SolverState.forceReg, hj]
    · have hs : (st.forceReg i (.intC v1)).sigma i = .forcedconstant (.intC v1) := by
        simp [SolverState.forceReg, hu, LatticeVal.markForcedConstant]
      simp [hrt, getFeasibleSuccessors, valueStateOf, hs,
        LatticeVal.getConstantInt, findCaseValue, findCaseIdx,
        List.replicate_succ]
  · have hrt : ruiTerm F b st =
        ({ blocks := F.blocks.set b
            { blk with term := .switch (.cnst cty (.intC v1)) dflt ((v1, d1) :: cs) } },
         markEdgeExecutable st b d1, true) := by
      simp [ruiTerm, hget, hterm, valueStateOf, LatticeVal.isUndefined]
    refine ⟨by simp [hrt], by simp [hrt], ?_, ?_⟩
    · simp [hrt, sigma_markEdgeExecutable]
    · simp only [hrt]
      exact mem_edges_markEdgeExecutable st b d1

/-- Witness for C6_forced_edges_amended at the concrete symbolic branch of
    C6_cex and at a concrete branch on the literal undef sentinel with a
    not-yet-executable false successor, discharging each hypothesis. -/
theorem C6_forced_edges_amended_witness :
    (ruiTerm F6 0 st6).2.2 = true
  ∧ (ruiTerm F6 0 st6).2.1.sigma 0 = .forcedconstant (.intC 0)
  ∧ getFeasibleSuccessors (ruiTerm F6 0 st6).2.1.sigma
      (.brCond (.reg .int 0) 1 2) = [false, true]
  ∧ (ruiTerm F6u 0 st6).2.1.sigma = st6.sigma
  ∧ (0, 2) ∈ (ruiTerm F6u 0 st6).2.1.edges :=
  ⟨((C6_forced_edges_amended F6 st6 0 ⟨[], .brCond (.reg .int 0) 1 2⟩ .int .int
      0 1 2 0 0 0 [] rfl).1 rfl rfl).2.1,
   ((C6_forced_edges_amended F6 st6 0 ⟨[], .brCond (.reg .int 0) 1 2⟩ .int .int
      0 1 2 0 0 0 [] rfl).1 rfl rfl).2.2.1,
   ((C6_forced_edges_amended F6 st6 0 ⟨[], .brCond (.reg .int 0) 1 2⟩ .int .int
      0 1 2 0 0 0 [] rfl).1 rfl rfl).2.2.2.2.2,
   ((C6_forced_edges_amended F6u st6 0 ⟨[], .brCond (.cnst .int .undefC) 1 2⟩
      .int .int 0 1 2 0 0 0 [] rfl).2.1 rfl (by decide)).2.2.1,
   ((C6_forced_edges_amended F6u st6 0 ⟨[], .brCond (.cnst .int .undefC) 1 2⟩
      .int .int 0 1 2 0 0 0 [] rfl).2.1 rfl (by decide)).2.2.2⟩

/-- ruiStructMark writes only struct field states: the scalar states, the
    executable set and the edge set are untouched. -/
theorem ruiStructMark_frame : ∀ (l : List Nat) (st : SolverState) (id : Nat),
    ((l.foldl
      (fun s k => if (s.sigmaS id k).isUndefined then s.overdefField id k else s)
      st).sigma = st.sigma
  ∧ (l.foldl
      (fun s k => if (s.sigmaS id k).isUndefined then s.overdefField id k else s)
      st).bbexec = st.bbexec
  ∧ (l.foldl
      (fun s k => if (s.sigmaS id k).isUndefined then s.overdefField id k else s)
      st).edges = st.edges) := by
  intro l
  induction l with
  | nil => intro st id; exact ⟨rfl, rfl, rfl⟩
  | cons x xs ih =>
    intro st id
    simp only [List.foldl_cons]
    rcases ih (if (st.sigmaS id x).isUndefined then st.overdefField id x else st) id
      with ⟨h1, h2, h3⟩
    rw [h1, h2, h3]
    split
    all_goals exact ⟨rfl, rfl, rfl⟩

/-- When the instruction scan body makes no forced decision it changes no
    scalar state, no executable set and no edge set (only struct field states
    of call and select results may have been raised). -/
theorem ruiInst_false_frame : ∀ (st : SolverState) (id : Nat) (ins : Instr),
    (ruiInst st id ins).2 = false →
    ((ruiInst st id ins).1.sigma = st.sigma
  ∧ (ruiInst st id ins).1.bbexec = st.bbexec
  ∧ (ruiInst st id ins).1.edges = st.edges) := by
  intro st id ins
  unfold ruiInst ruiStructMark
  dsimp only
  repeat' split
  all_goals intro h
  all_goals try exact ⟨rfl, rfl, rfl⟩
  all_goals try simp at h
  all_goals exact ruiStructMark_frame _ st id

/-- When the instruction loop of ResolvedUndefsIn over a block reports no
    forced decision, the scalar states, executable set and edge set are
    untouched. -/
theorem ruiInsts_false_frame : ∀ (l : List (Nat × Instr)) (st : SolverState),
    (ruiInsts st l).2 = false →
    ((ruiInsts st l).1.sigma = st.sigma
  ∧ (ruiInsts st l).1.bbexec = st.bbexec
  ∧ (ruiInsts st l).1.edges = st.edges) := by
  intro l
  induction l with
  | nil => intro st _; exact ⟨rfl, rfl, rfl⟩
  | cons p rest ih =>
    obtain ⟨id, ins⟩ := p
    intro st h
    simp only [ruiInsts] at h ⊢
    by_cases hr : (ruiInst st id ins).2 = true
    · rw [if_pos hr] at h
      simp at h
    · rw [if_neg hr] at h ⊢
      have hf : (ruiInst st id ins).2 = false := by
        cases hx : (ruiInst st id ins).2
        · rfl
        · exact absurd hx hr
      rcases ruiInst_false_frame st id ins hf with ⟨a1, a2, a3⟩
      rcases ih (ruiInst st id ins).1 h with ⟨b1, b2, b3⟩
      exact ⟨b1.trans a1, b2.trans a2, b3.trans a3⟩

/-- When the terminator handling of ResolvedUndefsIn forces nothing it
    changes nothing at all. -/
theorem ruiTerm_false_eq : ∀ (F : Func) (b : Nat) (st : SolverState),
    (ruiTerm F b st).2.2 = false → ruiTerm F b st = (F, st, false) := by
  intro F b st
  unfold ruiTerm
  repeat' split
  all_goals intro h
  all_goals try rfl
  all_goals simp at h

/-- When the block loop of ResolvedUndefsIn reports no forced decision, the
    IR, the scalar states, the executable set and the edge set are all
    untouched. -/
theorem ruiBlocks_false_frame : ∀ (l : List Nat) (F : Func) (st : SolverState),
    (ruiBlocks F st l).2.2 = false →
    ((ruiBlocks F st l).1 = F
  ∧ (ruiBlocks F st l).2.1.sigma = st.sigma
  ∧ (ruiBlocks F st l).2.1.bbexec = st.bbexec
  ∧ (ruiBlocks F st l).2.1.edges = st.edges) := by
  intro l
  induction l with
  | nil => intro F st _; exact ⟨rfl, rfl, rfl, rfl⟩
  | cons b rest ih =>
    intro F st
    simp only [ruiBlocks]
    by_cases hex : (!(st.bbexec.contains b)) = true
    · rw [if_pos hex]
      exact fun h => ih F st h
    · rw [if_neg hex]
      cases hget : F.blocks.get? b with
      | none => exact fun h => ih F st h
      | some blk =>
        dsimp only
        by_cases hr : (ruiInsts st blk.insts).2 = true
        · rw [if_pos hr]
          intro h
          simp at h
        · rw [if_neg hr]
          have hf : (ruiInsts st blk.insts).2 = false := by
            cases hx : (ruiInsts st blk.insts).2
            · rfl
            · exact absurd hx hr
          rcases ruiInsts_false_frame blk.insts st hf with ⟨a1, a2, a3⟩
          by_cases ht : (ruiTerm F b (ruiInsts st blk.insts).1).2.2 = true
          · rw [if_pos ht]
            intro h
            rw [ht] at h
            simp at h
          · rw [if_neg ht]
            intro h
            rcases ih F (ruiInsts st blk.insts).1 h with ⟨b0, b1, b2, b3⟩
            exact ⟨b0, b1.trans a1, b2.trans a2, b3.trans a3⟩

theorem termFrame_refl : ∀ t, TermFrame t t := by
  intro t
  cases t <;> simp [TermFrame, condFrame]

theorem blockFrame_refl : ∀ b, BlockFrame b b := fun b => ⟨rfl, termFrame_refl b.term⟩

theorem funcFrame_refl : ∀ F, FuncFrame F F := fun F =>
  List.forall₂_same.mpr (fun x _ => blockFrame_refl x)

/-- Replacing one block with a BlockFrame-related block keeps the lists
    blockwise related. -/
theorem forall₂_blockframe_set : ∀ (bs : List Block) (b : Nat) (blk blk' : Block),
    bs.get? b = some blk → BlockFrame blk blk' →
    List.Forall₂ BlockFrame bs (bs.set b blk') := by
  intro bs
  induction bs with
  | nil => intro b blk blk' h _; simp at h
  | cons x xs ih =>
    intro b blk blk' h hb
    cases b with
    | zero =>
      rw [List.get?_cons_zero] at h
      have hx := Option.some.inj h
      subst hx
      simp only [List.set_cons_zero]
      exact List.Forall₂.cons hb (List.forall₂_same.mpr (fun y _ => blockFrame_refl y))
    | succ b =>
      rw [List.get?_cons_succ] at h
      simp only [List.set_cons_succ]
      exact List.Forall₂.cons (blockFrame_refl x) (ih b blk blk' h hb)

/-- The terminator handling of ResolvedUndefsIn respects the frame: it can
    only replace a literal-undef branch or switch condition with an
    integer-constant literal. -/
theorem ruiTerm_frame : ∀ (F : Func) (b : Nat) (st : SolverState),
    FuncFrame F (ruiTerm F b st).1 := by
  intro F b st
  unfold ruiTerm
  cases hget : F.blocks.get? b with
  | none => exact funcFrame_refl F
  | some blk =>
    dsimp only
    cases hterm : blk.term with
    | brCond cond succ0 succ1 =>
      dsimp only
      split
      · exact funcFrame_refl F
      · cases cond with
        | reg rt i => exact funcFrame_refl F
        | cnst ct c =>
          cases c with
          | undefC =>
            dsimp only
            refine forall₂_blockframe_set F.blocks b blk _ hget ⟨rfl, ?_⟩
            rw [hterm]
            exact ⟨Or.inr ⟨⟨ct, rfl⟩, ⟨.int, 0, rfl⟩⟩, rfl, rfl⟩
          | intC n => exact funcFrame_refl F
          | structC fs => exact funcFrame_refl F
          | aggZeroC => exact funcFrame_refl F
          | nullOther t0 => exact funcFrame_refl F
          | otherC n => exact funcFrame_refl F
    | switch cond dd cs =>
      dsimp only
      split
      · exact funcFrame_refl F
      · split
        · exact funcFrame_refl F
        · cases hh : cs.head? with
          | none => exact funcFrame_refl F
          | some p =>
            obtain ⟨v1, d1⟩ := p
            dsimp only
            cases cond with
            | reg rt i => exact funcFrame_refl F
            | cnst ct c =>
              cases c with
              | undefC =>
                dsimp only
                refine forall₂_blockframe_set F.blocks b blk _ hget ⟨rfl, ?_⟩
                rw [hterm]
                exact ⟨Or.inr ⟨⟨ct, rfl⟩, ⟨ct, v1, rfl⟩⟩, rfl, rfl⟩
              | intC n => exact funcFrame_refl F
              | structC fs => exact funcFrame_refl F
              | aggZeroC => exact funcFrame_refl F
              | nullOther t0 => exact funcFrame_refl F
              | otherC n => exact funcFrame_refl F
    | brUncond d => exact funcFrame_refl F
    | indirectBr ds => exact funcFrame_refl F
    | ret v => exact funcFrame_refl F
    | unreachable => exact funcFrame_refl F

/-- The block loop of ResolvedUndefsIn respects the frame. -/
theorem ruiBlocks_frame : ∀ (l : List Nat) (F : Func) (st : SolverState),
    FuncFrame F (ruiBlocks F st l).1 := by
  intro l
  induction l with
  | nil => intro F st; exact funcFrame_refl F
  | cons b rest ih =>
    intro F st
    simp only [ruiBlocks]
    by_cases hex : (!(st.bbexec.contains b)) = true
    · rw [if_pos hex]
      exact ih F st
    · rw [if_neg hex]
      cases hget : F.blocks.get? b with
      | none => exact ih F st
      | some blk =>
        dsimp only
        by_cases hr : (ruiInsts st blk.insts).2 = true
        · rw [if_pos hr]
          exact funcFrame_refl F
        · rw [if_neg hr]
          by_cases ht : (ruiTerm F b (ruiInsts st blk.insts).1).2.2 = true
          · rw [if_pos ht]
            exact ruiTerm_frame F b (ruiInsts st blk.insts).1
          · rw [if_neg ht]
            exact ih F (ruiInsts st blk.insts).1

/-- C8 counterexample: the claim says the solver never mutates the IR, but
    ResolvedUndefsIn on a branch whose condition is the literal undef
    sentinel rewrites that condition in place (BI->setCondition at line 1557)
    to ConstantInt false: the returned function differs from the input
    function. -/
theorem C8_cex :
    ¬ ((resolvedUndefsIn F8 st8).1 = F8)
  ∧ (resolvedUndefsIn F8 st8).1.blocks.get? 0 =
      some ⟨[], .brCond (.cnst .int (.intC 0)) 1 1⟩ := by decide

/-- C8 amended: the lattice operations and transfer functions write only the
    auxiliary lattice and reachability state; ResolvedUndefsIn can change the
    IR in exactly one way: a conditional branch or switch condition that is
    the literal undef sentinel may be replaced in place by an
    integer-constant literal.  Block count, every instruction list, every
    successor, and every other condition are unchanged. -/
theorem C8_solver_frame_amended : ∀ (F : Func) (st : SolverState),
    FuncFrame F (resolvedUndefsIn F st).1 := by
  intro F st
  exact ruiBlocks_frame (List.range F.blocks.length) F st

/-- C10 counterexample: the claim says ResolvedUndefsIn returns true
    immediately after any forced markOverdefined and returns false only
    having made no change; but the struct-typed call at register 5 has its
    still-undefined field 0 marked Overdefined (lines 1426-1432) without an
    early return, and the pass then returns false despite that change. -/
theorem C10_cex :
    (resolvedUndefsIn F10 st10).2.2 = false
  ∧ (resolvedUndefsIn F10 st10).2.1.sigmaS 5 0 = .overdefined
  ∧ st10.sigmaS 5 0 = .undefined := by decide

/-- C10 amended: a single invocation of ResolvedUndefsIn returns true at the
    first forced decision of its scalar-opcode switch or terminator handling,
    and returns false only after scanning every executable block while
    changing no scalar lattice value, no IR, no executable block, and no
    feasible edge; it may nonetheless have marked still-Undefined fields of
    struct-typed call and select results Overdefined, which do not trigger an
    early return. -/
theorem C10_false_no_change_amended : ∀ (F : Func) (st : SolverState),
    (resolvedUndefsIn F st).2.2 = false →
    ((resolvedUndefsIn F st).1 = F
  ∧ (resolvedUndefsIn F st).2.1.sigma = st.sigma
  ∧ (resolvedUndefsIn F st).2.1.bbexec = st.bbexec
  ∧ (resolvedUndefsIn F st).2.1.edges = st.edges) := by
  intro F st h
  exact ruiBlocks_false_frame (List.range F.blocks.length) F st h

/-- Witness for C10_false_no_change_amended at the concrete function of
    C10_cex, discharging the hypothesis. -/
theorem C10_false_no_change_amended_witness :
    (resolvedUndefsIn F10 st10).1 = F10
  ∧ (resolvedUndefsIn F10 st10).2.1.sigma = st10.sigma
  ∧ (resolvedUndefsIn F10 st10).2.1.bbexec = st10.bbexec
  ∧ (resolvedUndefsIn F10 st10).2.1.edges = st10.edges :=
  C10_false_no_change_amended F10 st10 (by decide)
